import Mathlib

/-!
# Verification development for `ghg/www/wasm/ghg.js`

A shallow embedding of the host-interop shim: the handle table (`heap`, `heap_next`,
`getObject`, `dropObject`, `takeObject`, `addHeapObject`), the string marshalling
(`passStringToWasm0`, `getStringFromWasm0`, `encodeString`), the closure wrapper
(`makeMutClosure`, `__wbindgen_cb_drop`), `handleError`, the cached memory views and the
initialisation functions.
-/

namespace Ghg

/-! ## JavaScript values held by the handle table -/

/-- Host values as far as the handle table can tell them apart.  `number` carries the
integer-valued numbers (the only ones that can be `===` to `heap.length` or serve as an
array index); `other` stands for every remaining host value (strings, non-integer
numbers, objects, functions), told apart by identity. -/
inductive JsValue where
  | undefined
  | null
  | bool (b : Bool)
  | number (n : Int)
  | other (id : Nat)
  deriving DecidableEq

/-- The two module-level variables of the handle table: `heap` and `heap_next`.
`heap_next` is an arbitrary value, because `addHeapObject` assigns `heap[idx]` to it. -/
structure HeapState where
  heap : List JsValue
  heap_next : JsValue
  deriving DecidableEq

/-- `const heap = new Array(128).fill(undefined); heap.push(undefined, null, true, false);`
followed by `let heap_next = heap.length;`. -/
def initialHeap : HeapState :=
  let heap := List.replicate 128 JsValue.undefined ++
    [JsValue.undefined, JsValue.null, JsValue.bool true, JsValue.bool false]
  { heap := heap, heap_next := JsValue.number heap.length }

/-- The read `a[idx]` of a JavaScript array at a number `idx`: an index outside the
array (or a hole) reads as `undefined`; a negative number is a property key that no
modelled operation ever defines, so it reads as `undefined` too. Never throws. -/
def arrayGet (a : List JsValue) (idx : Int) : JsValue :=
  if idx < 0 then JsValue.undefined else a.getD idx.toNat JsValue.undefined

/-- The write `a[i] = v` of a JavaScript array at an array index `i`: inside the array
the element is replaced, past the end the array grows to length `i + 1` and the holes
in between read as `undefined`. -/
def arraySet (a : List JsValue) (i : Nat) (v : JsValue) : List JsValue :=
  if i < a.length then a.set i v
  else a ++ List.replicate (i - a.length) JsValue.undefined ++ [v]

/-- `function getObject(idx) { return heap[idx]; }` -/
def getObject (s : HeapState) (idx : Int) : JsValue :=
  arrayGet s.heap idx

/-- `function dropObject(idx) { if (idx < 132) return; heap[idx] = heap_next; heap_next = idx; }` -/
def dropObject (s : HeapState) (idx : Int) : HeapState :=
  if idx < 132 then s
  else { heap := arraySet s.heap idx.toNat s.heap_next, heap_next := JsValue.number idx }

/-- `function takeObject(idx) { const ret = getObject(idx); dropObject(idx); return ret; }`:
the new table and the returned value. -/
def takeObject (s : HeapState) (idx : Int) : HeapState × JsValue :=
  let ret := getObject s idx
  (dropObject s idx, ret)

/-- The body of `addHeapObject(obj)`:
`if (heap_next === heap.length) heap.push(heap.length + 1); const idx = heap_next;
heap_next = heap[idx]; heap[idx] = obj; return idx;`.
The result is the new table and the returned `idx`.  The result is `none` when
`heap_next` is not a non-negative integer: `heap[idx]` is then an access to a named
property of the array object, which this model of the table does not represent. -/
def addHeapObject (s : HeapState) (obj : JsValue) : Option (HeapState × Int) :=
  let heap :=
    if s.heap_next = JsValue.number s.heap.length
    then s.heap ++ [JsValue.number (s.heap.length + 1)]
    else s.heap
  match s.heap_next with
  | JsValue.number idx =>
    if 0 ≤ idx then
      some ({ heap := arraySet heap idx.toNat obj, heap_next := arrayGet heap idx }, idx)
    else none
  | _ => none

/-! ## Sequences of table operations and the release discipline -/

/-- One call made by the adapter layer on the handle table. -/
inductive HeapOp where
  | add (v : JsValue)
  | drop (h : Int)
  | take (h : Int)
  deriving DecidableEq

/-- The table together with the bookkeeping of the discipline: `live` lists the handles
returned by `addHeapObject` and not released since, each with the value it was
allocated for. -/
structure Tracked where
  st : HeapState
  live : List (Int × JsValue)
  deriving DecidableEq

/-- The initial table; no handle has been allocated. -/
def Tracked.init : Tracked := { st := initialHeap, live := [] }

/-- Whether `h` is currently live. -/
def Tracked.isLive (t : Tracked) (h : Int) : Bool :=
  (t.live.map Prod.fst).contains h

/-- The list `live` after the release of `h`. -/
def release (live : List (Int × JsValue)) (h : Int) : List (Int × JsValue) :=
  live.filter (fun p => decide (p.1 ≠ h))

/-- One operation applied under the discipline.  `drop` and `take` are refused (`none`)
on a handle that is not live; `add` runs `addHeapObject` and records the handle. -/
def Tracked.step (t : Tracked) : HeapOp → Option Tracked
  | HeapOp.add v =>
    match addHeapObject t.st v with
    | some (s, h) => some { st := s, live := (h, v) :: t.live }
    | none => none
  | HeapOp.drop h =>
    if t.isLive h then some { st := dropObject t.st h, live := release t.live h } else none
  | HeapOp.take h =>
    if t.isLive h then some { st := (takeObject t.st h).1, live := release t.live h } else none

/-- A sequence of operations applied under the discipline, left to right. -/
def Tracked.run (t : Tracked) : List HeapOp → Option Tracked
  | [] => some t
  | op :: ops =>
    match t.step op with
    | some t1 => t1.run ops
    | none => none

/-- `dropObject` applied to each handle of the list, in order. -/
def dropMany (s : HeapState) : List Int → HeapState
  | [] => s
  | h :: hs => dropMany (dropObject s h) hs

/-- `addHeapObject` applied to each value of the list, in order; the final table and the
returned indices in the order of the calls. -/
def addMany (s : HeapState) : List JsValue → Option (HeapState × List Int)
  | [] => some (s, [])
  | v :: vs =>
    match addHeapObject s v with
    | some (s1, h) =>
      match addMany s1 vs with
      | some (s2, hs) => some (s2, h :: hs)
      | none => none
    | none => none

/-- A sample sequence that respects the discipline: two allocations, a release of the
first handle, and a third allocation (which reuses slot 132). -/
def sampleOps : List HeapOp :=
  [HeapOp.add (JsValue.other 1), HeapOp.add (JsValue.other 2), HeapOp.drop 132,
    HeapOp.add (JsValue.other 3), HeapOp.add (JsValue.other 4)]

/-- The state reached by `sampleOps` from the initial table. -/
def sampleTracked : Tracked :=
  (Tracked.init.run sampleOps).getD Tracked.init

/-! ## The free list invariant -/

/-- The free list threaded through the table: starting at `nxt`, each free slot holds
the index of the next one and the last one holds `heap.length`. -/
def FreeChain (heap : List JsValue) : List Int → JsValue → Prop
  | [], nxt => nxt = JsValue.number heap.length
  | f :: fs, nxt => nxt = JsValue.number f ∧ FreeChain heap fs (arrayGet heap f)

/-- The invariant of the table under the discipline, for the free list `free`. -/
structure Inv (t : Tracked) (free : List Int) : Prop where
  chain : FreeChain t.st.heap free t.st.heap_next
  free_nodup : free.Nodup
  free_ok : ∀ f ∈ free, 132 ≤ f ∧ f < t.st.heap.length ∧ ∀ v, (f, v) ∉ t.live
  live_ok : ∀ h v, (h, v) ∈ t.live → 132 ≤ h ∧ h < t.st.heap.length ∧ arrayGet t.st.heap h = v
  low : ∀ i : Int, i < 132 → arrayGet t.st.heap i = arrayGet initialHeap.heap i
  len : 132 ≤ t.st.heap.length

/-! ## Strings, UTF-8 and linear memory

A JavaScript string is the list of its UTF-16 code units; a byte buffer is the list of
its bytes.  `TextEncoder` and `TextDecoder` are host objects: they are modelled after the
WHATWG Encoding standard (UTF-8 encoder, UTF-8 decoder with `fatal: true` and
`ignoreBOM: true`, so that no byte order mark is dropped from the output). -/

/-- Every element is a UTF-16 code unit. -/
def IsString (s : List Nat) : Prop := ∀ c ∈ s, c < 65536

/-- A leading (high) surrogate. -/
def isHighSurrogate (c : Nat) : Bool := decide (0xD800 ≤ c ∧ c ≤ 0xDBFF)

/-- A trailing (low) surrogate. -/
def isLowSurrogate (c : Nat) : Bool := decide (0xDC00 ≤ c ∧ c ≤ 0xDFFF)

/-- The scalar values of a string, each with the number of code units it was read from:
a surrogate pair gives one supplementary scalar (2 units), an unpaired surrogate gives
U+FFFD (1 unit), any other code unit gives itself (1 unit). -/
def scalarsOf : List Nat → List (Nat × Nat)
  | [] => []
  | c :: rest =>
    if isHighSurrogate c then
      match rest with
      | d :: rest2 =>
        if isLowSurrogate d then
          (0x10000 + (c - 0xD800) * 0x400 + (d - 0xDC00), 2) :: scalarsOf rest2
        else (0xFFFD, 1) :: scalarsOf (d :: rest2)
      | [] => [(0xFFFD, 1)]
    else if isLowSurrogate c then (0xFFFD, 1) :: scalarsOf rest
    else (c, 1) :: scalarsOf rest

/-- The UTF-8 bytes of one scalar value. -/
def utf8Bytes (cp : Nat) : List Nat :=
  if cp < 0x80 then [cp]
  else if cp < 0x800 then [0xC0 + cp / 64, 0x80 + cp % 64]
  else if cp < 0x10000 then [0xE0 + cp / 4096, 0x80 + cp / 64 % 64, 0x80 + cp % 64]
  else [0xF0 + cp / 262144, 0x80 + cp / 4096 % 64, 0x80 + cp / 64 % 64, 0x80 + cp % 64]

/-- The UTF-8 bytes of a list of scalar values. -/
def utf8Encode : List Nat → List Nat
  | [] => []
  | cp :: rest => utf8Bytes cp ++ utf8Encode rest

/-- `cachedTextEncoder.encode(arg)`: the UTF-8 encoding of the string. -/
def textEncode (arg : List Nat) : List Nat :=
  utf8Encode ((scalarsOf arg).map Prod.fst)

/-- The loop of `TextEncoder.encodeInto`: scalars are written while their bytes fit in
the remaining capacity; the result is the number of code units read and the bytes
written. -/
def encodeIntoLoop : List (Nat × Nat) → Nat → Nat × List Nat
  | [], _ => (0, [])
  | (cp, units) :: rest, capacity =>
    if (utf8Bytes cp).length ≤ capacity then
      let r := encodeIntoLoop rest (capacity - (utf8Bytes cp).length)
      (units + r.1, utf8Bytes cp ++ r.2)
    else (0, [])

/-- The state of the UTF-8 decoder between two bytes: the code point collected so far,
the number of continuation bytes still needed, and the bounds in force for the next
byte. -/
structure Utf8State where
  codePoint : Nat
  bytesNeeded : Nat
  lower : Nat
  upper : Nat
  deriving DecidableEq

/-- The decoder state at the start of a code point. -/
def Utf8State.start : Utf8State :=
  { codePoint := 0, bytesNeeded := 0, lower := 0x80, upper := 0xBF }

/-- The UTF-8 decoder with `fatal: true`, one byte at a time: the scalar values of a byte
sequence, or `none` where the decoder throws (overlong forms, surrogates, values above
U+10FFFF, stray or missing continuation bytes). -/
def utf8DecodeFrom : Utf8State → List Nat → Option (List Nat)
  | st, [] => if st.bytesNeeded = 0 then some [] else none
  | st, b :: rest =>
    if st.bytesNeeded = 0 then
      if b ≤ 0x7F then (utf8DecodeFrom Utf8State.start rest).map (fun cps => b :: cps)
      else if 0xC2 ≤ b ∧ b ≤ 0xDF then
        utf8DecodeFrom { codePoint := b - 0xC0, bytesNeeded := 1, lower := 0x80, upper := 0xBF }
          rest
      else if 0xE0 ≤ b ∧ b ≤ 0xEF then
        utf8DecodeFrom { codePoint := b - 0xE0, bytesNeeded := 2,
                         lower := if b = 0xE0 then 0xA0 else 0x80,
                         upper := if b = 0xED then 0x9F else 0xBF } rest
      else if 0xF0 ≤ b ∧ b ≤ 0xF4 then
        utf8DecodeFrom { codePoint := b - 0xF0, bytesNeeded := 3,
                         lower := if b = 0xF0 then 0x90 else 0x80,
                         upper := if b = 0xF4 then 0x8F else 0xBF } rest
      else none
    else if st.lower ≤ b ∧ b ≤ st.upper then
      if st.bytesNeeded = 1 then
        (utf8DecodeFrom Utf8State.start rest).map
          (fun cps => (st.codePoint * 64 + (b - 0x80)) :: cps)
      else
        utf8DecodeFrom { codePoint := st.codePoint * 64 + (b - 0x80),
                         bytesNeeded := st.bytesNeeded - 1, lower := 0x80, upper := 0xBF } rest
    else none

/-- The scalar values of a whole byte sequence. -/
def utf8Decode (bytes : List Nat) : Option (List Nat) :=
  utf8DecodeFrom Utf8State.start bytes

/-- The UTF-16 code units of one scalar value. -/
def unitsOfScalar (cp : Nat) : List Nat :=
  if cp < 0x10000 then [cp]
  else [0xD800 + (cp - 0x10000) / 0x400, 0xDC00 + (cp - 0x10000) % 0x400]

/-- The string made of a list of scalar values. -/
def stringOfScalars : List Nat → List Nat
  | [] => []
  | cp :: rest => unitsOfScalar cp ++ stringOfScalars rest

/-- The host exceptions that the modelled calls can throw. -/
inductive JsError where
  | rangeError
  | typeError
  | linkError
  | runtimeError
  deriving DecidableEq

/-- `cachedTextDecoder.decode(bytes)` for the decoder
`new TextDecoder('utf-8', { ignoreBOM: true, fatal: true })`. -/
def textDecode (bytes : List Nat) : Except JsError (List Nat) :=
  match utf8Decode bytes with
  | some cps => Except.ok (stringOfScalars cps)
  | none => Except.error JsError.typeError

/-- A string without unpaired surrogates (well-formed UTF-16). -/
def wellFormed : List Nat → Bool
  | [] => true
  | c :: rest =>
    if isHighSurrogate c then
      match rest with
      | d :: rest2 => isLowSurrogate d && wellFormed rest2
      | [] => false
    else if isLowSurrogate c then false
    else decide (c < 65536) && wellFormed rest

/-- `x >>> 0` on an integer: the value modulo 2^32. -/
def toUint32 (x : Int) : Nat := (x % 4294967296).toNat

/-- The instance of the compiled module as the shim sees it: the module's private state
(allocator bookkeeping, globals) and the bytes of `wasm.memory.buffer`.  The view that
`getUint8Memory0()` returns is over the current buffer (section "Cached memory views"),
so reads and writes through it are reads and writes of `memory`. -/
structure Wasm (σ : Type) where
  inst : σ
  memory : List Nat

/-- An exported allocation function `malloc(size, align)`: the instance after the call
and the returned `i32`. -/
abbrev Malloc (σ : Type) := Wasm σ → Nat → Nat → Wasm σ × Int

/-- An exported function `realloc(ptr, oldSize, newSize, align)`. -/
abbrev Realloc (σ : Type) := Wasm σ → Nat → Nat → Nat → Nat → Wasm σ × Int

/-- A call of the module's allocator made by the shim. -/
inductive AllocCall where
  | malloc (size align : Nat)
  | realloc (ptr oldSize newSize align : Nat)
  deriving DecidableEq

/-- A logged allocator call, with the bytes of linear memory at the time of the call. -/
structure CallRecord where
  call : AllocCall
  memory : List Nat
  deriving DecidableEq

/-- Whether the call is a `realloc`. -/
def AllocCall.isRealloc : AllocCall → Bool
  | AllocCall.realloc _ _ _ _ => true
  | AllocCall.malloc _ _ => false

/-- Whether the call is a `malloc`. -/
def AllocCall.isMalloc : AllocCall → Bool
  | AllocCall.malloc _ _ => true
  | AllocCall.realloc _ _ _ _ => false

/-- A `Uint8Array` view of linear memory: byte offset and length. -/
structure View where
  start : Nat
  length : Nat
  deriving DecidableEq

/-- `getUint8Memory0().subarray(b, e)`: both ends are clamped to the size of memory. -/
def subarray (mem : List Nat) (b e : Nat) : View :=
  { start := min b mem.length, length := min e mem.length - min b mem.length }

/-- The `n` bytes of memory from address `p` on (fewer at the end of memory). -/
def slice (mem : List Nat) (p n : Nat) : List Nat := (mem.drop p).take n

/-- The bytes seen through a view. -/
def View.read (v : View) (mem : List Nat) : List Nat := slice mem v.start v.length

/-- Memory after `bytes` have been stored from address `p` on (the region lies inside
memory at every use). -/
def writeBytes (mem : List Nat) (p : Nat) (bytes : List Nat) : List Nat :=
  mem.take p ++ bytes ++ mem.drop (p + bytes.length)

/-- `view.set(buf)`: throws a `RangeError` when `buf` is longer than the view. -/
def View.setBytes (v : View) (mem : List Nat) (buf : List Nat) : Except JsError (List Nat) :=
  if buf.length ≤ v.length then Except.ok (writeBytes mem v.start buf)
  else Except.error JsError.rangeError

/-- The record `{ read, written }` returned by `encodeString`. -/
structure EncodeResult where
  read : Nat
  written : Nat
  deriving DecidableEq

/-- `encodeString(arg, view)`, in both of its definitions: with `encodeInto` available it
is `cachedTextEncoder.encodeInto(arg, view)`; otherwise it encodes the whole string,
copies it with `view.set(buf)` and returns `{ read: arg.length, written: buf.length }`.
The result is the new memory and the returned record. -/
def encodeString (hasEncodeInto : Bool) (arg : List Nat) (view : View) (mem : List Nat) :
    Except JsError (List Nat × EncodeResult) :=
  if hasEncodeInto then
    let r := encodeIntoLoop (scalarsOf arg) view.length
    Except.ok (writeBytes mem view.start r.2, { read := r.1, written := r.2.length })
  else
    let buf := textEncode arg
    match view.setBytes mem buf with
    | Except.ok mem1 => Except.ok (mem1, { read := arg.length, written := buf.length })
    | Except.error e => Except.error e

/-- The loop `for (; offset < len; offset++) { const code = arg.charCodeAt(offset);
if (code > 0x7F) break; mem[ptr + offset] = code; }`.  The list is the part of `arg` from
`offset` on; the result is the final `offset` and memory.  A store to a `Uint8Array`
keeps the value modulo 256 and is ignored outside the array. -/
def asciiLoop (ptr : Nat) : List Nat → Nat → List Nat → Nat × List Nat
  | [], offset, mem => (offset, mem)
  | code :: rest, offset, mem =>
    if code > 0x7F then (offset, mem)
    else asciiLoop ptr rest (offset + 1) (mem.set (ptr + offset) (code % 256))

/-- What `passStringToWasm0` leaves behind: the instance, the returned pointer, the
global `WASM_VECTOR_LEN`, and the allocator calls it made, in order. -/
structure PassResult (σ : Type) where
  wasm : Wasm σ
  ptr : Nat
  WASM_VECTOR_LEN : Nat
  calls : List CallRecord

/-- `passStringToWasm0(arg, malloc, realloc)`; `realloc = none` is `realloc === undefined`.
`hasEncodeInto` tells which definition of `encodeString` the host selected. -/
def passStringToWasm0 {σ : Type} (hasEncodeInto : Bool) (w : Wasm σ) (arg : List Nat)
    (malloc : Malloc σ) (realloc : Option (Realloc σ)) : Except JsError (PassResult σ) :=
  match realloc with
  | none =>
    let buf := textEncode arg
    let m := malloc w buf.length 1
    let ptr := toUint32 m.2
    match (subarray m.1.memory ptr (ptr + buf.length)).setBytes m.1.memory buf with
    | Except.error e => Except.error e
    | Except.ok mem =>
      Except.ok { wasm := { inst := m.1.inst, memory := mem }, ptr := ptr,
                  WASM_VECTOR_LEN := buf.length,
                  calls := [⟨AllocCall.malloc buf.length 1, w.memory⟩] }
  | some realloc =>
    let len := arg.length
    let m := malloc w len 1
    let ptr := toUint32 m.2
    let lp := asciiLoop ptr arg 0 m.1.memory
    let offset := lp.1
    let w1 : Wasm σ := { inst := m.1.inst, memory := lp.2 }
    if offset ≠ len then
      let arg1 := if offset ≠ 0 then arg.drop offset else arg
      let len1 := offset + arg1.length * 3
      let r1 := realloc w1 ptr len len1 1
      let ptr1 := toUint32 r1.2
      let view := subarray r1.1.memory (ptr1 + offset) (ptr1 + len1)
      match encodeString hasEncodeInto arg1 view r1.1.memory with
      | Except.error e => Except.error e
      | Except.ok (mem2, ret) =>
        let offset2 := offset + ret.written
        let w2 : Wasm σ := { inst := r1.1.inst, memory := mem2 }
        let r2 := realloc w2 ptr1 len1 offset2 1
        Except.ok { wasm := r2.1, ptr := toUint32 r2.2, WASM_VECTOR_LEN := offset2,
                    calls := [⟨AllocCall.malloc len 1, w.memory⟩,
                              ⟨AllocCall.realloc ptr len len1 1, w1.memory⟩,
                              ⟨AllocCall.realloc ptr1 len1 offset2 1, w2.memory⟩] }
    else
      Except.ok { wasm := w1, ptr := ptr, WASM_VECTOR_LEN := offset,
                  calls := [⟨AllocCall.malloc len 1, w.memory⟩] }

/-- `getStringFromWasm0(ptr, len)`:
`ptr = ptr >>> 0; return cachedTextDecoder.decode(getUint8Memory0().subarray(ptr, ptr + len));` -/
def getStringFromWasm0 {σ : Type} (w : Wasm σ) (ptr : Int) (len : Nat) :
    Except JsError (List Nat) :=
  textDecode ((subarray w.memory (toUint32 ptr) (toUint32 ptr + len)).read w.memory)

/-- The allocator returns regions that lie inside linear memory. -/
def MallocInBounds {σ : Type} (malloc : Malloc σ) : Prop :=
  ∀ (w : Wasm σ) (size align : Nat),
    toUint32 (malloc w size align).2 + size ≤ (malloc w size align).1.memory.length

/-- The contract of `realloc`: the new region lies inside linear memory and, when the
old region did, it starts with the retained prefix (the first `min oldSize newSize`
bytes) of the old region. -/
def ReallocPreserves {σ : Type} (realloc : Realloc σ) : Prop :=
  ∀ (w : Wasm σ) (ptr oldSize newSize align : Nat),
    toUint32 (realloc w ptr oldSize newSize align).2 + newSize
        ≤ (realloc w ptr oldSize newSize align).1.memory.length ∧
      (ptr + oldSize ≤ w.memory.length →
        slice (realloc w ptr oldSize newSize align).1.memory
            (toUint32 (realloc w ptr oldSize newSize align).2) (min oldSize newSize)
          = slice w.memory ptr (min oldSize newSize))

/-- A sample allocator for an arena that holds one region at address 0: `malloc` pads
memory with zero bytes up to the requested size. -/
def arenaMalloc : Malloc Unit :=
  fun w size _ => ({ inst := (), memory := w.memory ++ List.replicate size 0 }, 0)

/-- The `realloc` of the sample arena: the retained prefix is moved to address 0 and
followed by `newSize` zero bytes. -/
def arenaRealloc : Realloc Unit :=
  fun w ptr oldSize newSize _ =>
    ({ inst := (), memory := slice w.memory ptr (min oldSize newSize)
        ++ List.replicate newSize 0 }, 0)

/-- An empty linear memory. -/
def emptyWasm : Wasm Unit := { inst := (), memory := [] }

/-! ## Closures made by `makeMutClosure` -/

/-- The record `state = { a: arg0, b: arg1, cnt: 1, dtor }` of a closure. -/
structure ClosureState where
  a : Int
  b : Int
  cnt : Int
  dtor : Int
  deriving DecidableEq

/-- What a closure does to the outside: calls of the module function `f`, calls of the
destructor `wasm.__wbindgen_export_2.get(state.dtor)` (from the wrapper or from the
callback of the finalization registry), `CLOSURE_DTORS.unregister(state)`, and the value
returned by `__wbindgen_cb_drop`. -/
inductive ClosureEvent where
  | callF (a b : Int)
  | callDtor (dtor a b : Int)
  | unregister
  | cbDropReturned (ret : Bool)
  deriving DecidableEq

/-- Whether the event is a call of the destructor. -/
def ClosureEvent.isDtor : ClosureEvent → Bool
  | ClosureEvent.callDtor _ _ _ => true
  | _ => false

/-- Whether the event destroys the closure environment: a call of the destructor, or
`__wbindgen_cb_drop` returning `true` (the module then frees the environment itself). -/
def ClosureEvent.isDestroy : ClosureEvent → Bool
  | ClosureEvent.callDtor _ _ _ => true
  | ClosureEvent.cbDropReturned true => true
  | _ => false

/-- Whether the event is a call of `f`. -/
def ClosureEvent.isCallF : ClosureEvent → Bool
  | ClosureEvent.callF _ _ => true
  | _ => false

/-- A closure at some point of its life.
* `state`: the record shared by the wrapper `real` and `__wbindgen_cb_drop`;
* `frames`: the local `const a` of every invocation of `real` that is in progress,
  innermost first;
* `log`: the events so far;
* `registered`: `state` is registered in `CLOSURE_DTORS` and the registry is a real
  `FinalizationRegistry`, so that its callback runs when `real` is collected;
* `held`: the handle table holds the wrapper `real` (from the `addHeapObject(ret)` of
  the adapter that created it until the `takeObject(arg0)` of `__wbindgen_cb_drop`);
* `collected`: the wrapper has been garbage collected. -/
structure ClosureSys where
  state : ClosureState
  frames : List Int
  log : List ClosureEvent
  registered : Bool
  held : Bool
  collected : Bool
  deriving DecidableEq

/-- `makeMutClosure(arg0, arg1, dtor, f)` followed by the `addHeapObject(ret)` of the
adapter `__wbindgen_closure_wrapper...` that calls it: the closure right after its
creation.
`CLOSURE_DTORS.register(real, state, state)` registers `state` when the host has
`FinalizationRegistry` (`hasFinalizationRegistry`), and does nothing otherwise. -/
def makeMutClosure (hasFinalizationRegistry : Bool) (arg0 arg1 dtor : Int) : ClosureSys :=
  { state := { a := arg0, b := arg1, cnt := 1, dtor := dtor }, frames := [], log := [],
    registered := hasFinalizationRegistry, held := true, collected := false }

/-- The wrapper `real(...args)` up to and including the call of `f`:
`state.cnt++; const a = state.a; state.a = 0; try { return f(a, state.b, ...args); }`. -/
def realEnter (s : ClosureSys) : ClosureSys :=
  { state := { a := 0, b := s.state.b, cnt := s.state.cnt + 1, dtor := s.state.dtor },
    frames := s.state.a :: s.frames,
    log := s.log ++ [ClosureEvent.callF s.state.a s.state.b],
    registered := s.registered, held := s.held, collected := s.collected }

/-- The `finally` block of the innermost invocation of `real` in progress, run when `f`
returns or throws with `outcome`:
`if (--state.cnt === 0) { wasm.__wbindgen_export_2.get(state.dtor)(a, state.b);
CLOSURE_DTORS.unregister(state); } else { state.a = a; }`.
The wrapper then completes with the outcome of `f`.  `none`: no invocation is in
progress. -/
def realFinally (s : ClosureSys) (outcome : Except JsValue JsValue) :
    Option (ClosureSys × Except JsValue JsValue) :=
  match s.frames with
  | [] => none
  | a :: frames =>
    if s.state.cnt - 1 = 0 then
      some ({ state := { a := s.state.a, b := s.state.b, cnt := s.state.cnt - 1,
                         dtor := s.state.dtor },
              frames := frames,
              log := s.log ++ [ClosureEvent.callDtor s.state.dtor a s.state.b,
                               ClosureEvent.unregister],
              registered := false, held := s.held, collected := s.collected }, outcome)
    else
      some ({ state := { a := a, b := s.state.b, cnt := s.state.cnt - 1,
                         dtor := s.state.dtor },
              frames := frames, log := s.log,
              registered := s.registered, held := s.held, collected := s.collected },
            outcome)

/-- `__wbindgen_cb_drop(arg0)` on the closure that `arg0` refers to
(`const obj = takeObject(arg0).original`, which takes the wrapper out of the handle
table): `if (obj.cnt-- == 1) { obj.a = 0; return true; } return false;`.
Nothing is unregistered here. -/
def __wbindgen_cb_drop (s : ClosureSys) : ClosureSys × Bool :=
  if s.state.cnt = 1 then
    ({ state := { a := 0, b := s.state.b, cnt := s.state.cnt - 1, dtor := s.state.dtor },
       frames := s.frames, log := s.log ++ [ClosureEvent.cbDropReturned true],
       registered := s.registered, held := false, collected := s.collected }, true)
  else
    ({ state := { a := s.state.a, b := s.state.b, cnt := s.state.cnt - 1,
                  dtor := s.state.dtor },
       frames := s.frames, log := s.log ++ [ClosureEvent.cbDropReturned false],
       registered := s.registered, held := false, collected := s.collected }, false)

/-- The callback of `CLOSURE_DTORS`, run by the host after the wrapper `real` has been
collected: `state => { wasm.__wbindgen_export_2.get(state.dtor)(state.a, state.b) }`.
A registration is used up by its callback. -/
def finalizer (s : ClosureSys) : ClosureSys :=
  { state := s.state, frames := s.frames,
    log := s.log ++ [ClosureEvent.callDtor s.state.dtor s.state.a s.state.b],
    registered := false, held := s.held, collected := true }

/-- Whether the host may collect the wrapper and run the callback of the registry:
`state` is registered, and the wrapper is unreachable (the handle table does not hold it,
no invocation of it is in progress) and not collected yet. -/
def ClosureSys.canFinalize (s : ClosureSys) : Bool :=
  s.registered && !s.held && s.frames.isEmpty && !s.collected

/-- One step of an interleaving: the host invokes the wrapper (which runs up to the call
of `f`), the innermost running `f` returns or throws, the module releases the closure
through `__wbindgen_cb_drop`, or the host collects the wrapper and runs the callback of
the finalization registry. -/
inductive ClosureAct where
  | invoke
  | finish (outcome : Except JsValue JsValue)
  | drop
  | finalize

/-- Whether the step is a release. -/
def ClosureAct.isDrop : ClosureAct → Bool
  | ClosureAct.drop => true
  | _ => false

/-- Whether the step is an invocation of the wrapper. -/
def ClosureAct.isInvoke : ClosureAct → Bool
  | ClosureAct.invoke => true
  | _ => false

/-- One step of an interleaving.  `none` marks a step that cannot happen: an invocation
of a collected wrapper, a `finish` with no invocation in progress, a
`__wbindgen_cb_drop` through a handle that the table no longer holds, a finalization of
a wrapper that is reachable or not registered. -/
def ClosureSys.step (s : ClosureSys) : ClosureAct → Option ClosureSys
  | ClosureAct.invoke => if s.collected then none else some (realEnter s)
  | ClosureAct.finish outcome => (realFinally s outcome).map Prod.fst
  | ClosureAct.drop => if s.held then some (__wbindgen_cb_drop s).1 else none
  | ClosureAct.finalize => if s.canFinalize then some (finalizer s) else none

/-- An interleaving, run from left to right. -/
def ClosureSys.run (s : ClosureSys) : List ClosureAct → Option ClosureSys
  | [] => some s
  | act :: acts =>
    match s.step act with
    | some s1 => s1.run acts
    | none => none

/-- The number of steps of the interleaving that bring `state.cnt` to zero (from a
value other than zero). -/
def cntZeroHits (s : ClosureSys) : List ClosureAct → Nat
  | [] => 0
  | act :: acts =>
    match s.step act with
    | some s1 =>
      (if s.state.cnt ≠ 0 ∧ s1.state.cnt = 0 then 1 else 0) + cntZeroHits s1 acts
    | none => 0

/-- No invocation of the wrapper starts while `state.cnt` is zero. -/
def noInvokeAtZero (s : ClosureSys) : List ClosureAct → Bool
  | [] => true
  | act :: acts =>
    (!(act.isInvoke && decide (s.state.cnt = 0))) &&
      match s.step act with
      | some s1 => noInvokeAtZero s1 acts
      | none => true

/-- A complete invocation of the wrapper with nothing happening during the call. -/
def invokeOnce : List ClosureAct :=
  [ClosureAct.invoke, ClosureAct.finish (Except.ok JsValue.undefined)]

/-- Before the release: the handle table holds the wrapper, the count is one more than
the number of invocations in progress, the outermost one holds the environment pointer,
and `state.a` holds it when no invocation is in progress. -/
structure Fresh (a0 b0 d0 : Int) (s : ClosureSys) : Prop where
  held : s.held = true
  cnt : s.state.cnt = 1 + s.frames.length
  b : s.state.b = b0
  dtor : s.state.dtor = d0
  top : s.frames = [] → s.state.a = a0
  bottom : ∀ x, s.frames.getLast? = some x → x = a0

/-- After a release during a call: the count is the number of invocations in progress
and the outermost one holds the environment pointer. -/
structure Pending (a0 b0 d0 : Int) (s : ClosureSys) : Prop where
  cnt : s.state.cnt = s.frames.length
  nonempty : s.frames ≠ []
  b : s.state.b = b0
  dtor : s.state.dtor = d0
  bottom : ∀ x, s.frames.getLast? = some x → x = a0

/-- What every state of a closure made by `makeMutClosure(a0, b0, d0)` satisfies: `b` and
`dtor` never change, `state.a` and every saved `a` are `a0` or 0, and every destructor
call so far passed `(a0, b0)` or `(0, b0)`. -/
structure DtorArgs (a0 b0 d0 : Int) (s : ClosureSys) : Prop where
  b : s.state.b = b0
  dtor : s.state.dtor = d0
  a : s.state.a = a0 ∨ s.state.a = 0
  frames : ∀ x ∈ s.frames, x = a0 ∨ x = 0
  log : ∀ e ∈ s.log, e.isDtor = true →
    e = ClosureEvent.callDtor d0 a0 b0 ∨ e = ClosureEvent.callDtor d0 0 b0

/-! ## `handleError` -/

/-- What `handleError` leaves behind: the handle table, the value it returns, and the
arguments of the calls of `wasm.__wbindgen_exn_store` it made. -/
structure HandleResult where
  heap : HeapState
  ret : JsValue
  exnStore : List Int
  deriving DecidableEq

/-- `handleError(f, args)`:
`try { return f.apply(this, args); } catch (e) { wasm.__wbindgen_exn_store(addHeapObject(e)); }`.
The host function applied to its arguments is `f`: from the handle table it gives the
table it leaves and either the value it returns or the exception it throws.  The result
is `none` only where `addHeapObject` leaves the modelled table. -/
def handleError (f : HeapState → HeapState × Except JsValue JsValue) (s : HeapState) :
    Option HandleResult :=
  match f s with
  | (s1, Except.ok v) => some { heap := s1, ret := v, exnStore := [] }
  | (s1, Except.error e) =>
    match addHeapObject s1 e with
    | some (s2, h) => some { heap := s2, ret := JsValue.undefined, exnStore := [h] }
    | none => none

/-! ## Cached memory views -/

/-- The memory of the instance as the accessors see it: the identity of the current
`wasm.memory.buffer` and its size in bytes.  Every other buffer is detached. -/
structure MemoryState where
  buffer : Nat
  byteLength : Nat
  deriving DecidableEq

/-- A typed array view, known by the buffer it was created over. -/
structure TypedView where
  buffer : Nat
  deriving DecidableEq

/-- `view.byteLength`: the size of the buffer, and 0 for a view of a detached buffer. -/
def TypedView.byteLength (v : TypedView) (m : MemoryState) : Nat :=
  if v.buffer = m.buffer then m.byteLength else 0

/-- Growing the memory: the old buffer is detached and `wasm.memory.buffer` is a new
buffer, larger by `delta` pages of 64 KiB. -/
def MemoryState.grow (m : MemoryState) (delta : Nat) : MemoryState :=
  { buffer := m.buffer + 1, byteLength := m.byteLength + delta * 65536 }

/-- The four module-level caches. -/
structure Caches where
  cachedUint8Memory0 : Option TypedView
  cachedInt32Memory0 : Option TypedView
  cachedFloat32Memory0 : Option TypedView
  cachedFloat64Memory0 : Option TypedView
  deriving DecidableEq

/-- All caches `null`. -/
def Caches.empty : Caches :=
  { cachedUint8Memory0 := none, cachedInt32Memory0 := none, cachedFloat32Memory0 := none,
    cachedFloat64Memory0 := none }

/-- `getUint8Memory0()`: `if (cachedUint8Memory0 === null || cachedUint8Memory0.byteLength === 0)
{ cachedUint8Memory0 = new Uint8Array(wasm.memory.buffer); } return cachedUint8Memory0;` -/
def getUint8Memory0 (m : MemoryState) (c : Caches) : Caches × TypedView :=
  match c.cachedUint8Memory0 with
  | some v =>
    if v.byteLength m = 0 then
      ({ c with cachedUint8Memory0 := some { buffer := m.buffer } }, { buffer := m.buffer })
    else (c, v)
  | none => ({ c with cachedUint8Memory0 := some { buffer := m.buffer } }, { buffer := m.buffer })

/-- `getInt32Memory0()`, the same with `cachedInt32Memory0` and `Int32Array`. -/
def getInt32Memory0 (m : MemoryState) (c : Caches) : Caches × TypedView :=
  match c.cachedInt32Memory0 with
  | some v =>
    if v.byteLength m = 0 then
      ({ c with cachedInt32Memory0 := some { buffer := m.buffer } }, { buffer := m.buffer })
    else (c, v)
  | none => ({ c with cachedInt32Memory0 := some { buffer := m.buffer } }, { buffer := m.buffer })

/-- `getFloat32Memory0()`, the same with `cachedFloat32Memory0` and `Float32Array`. -/
def getFloat32Memory0 (m : MemoryState) (c : Caches) : Caches × TypedView :=
  match c.cachedFloat32Memory0 with
  | some v =>
    if v.byteLength m = 0 then
      ({ c with cachedFloat32Memory0 := some { buffer := m.buffer } }, { buffer := m.buffer })
    else (c, v)
  | none =>
    ({ c with cachedFloat32Memory0 := some { buffer := m.buffer } }, { buffer := m.buffer })

/-- `getFloat64Memory0()`, the same with `cachedFloat64Memory0` and `Float64Array`. -/
def getFloat64Memory0 (m : MemoryState) (c : Caches) : Caches × TypedView :=
  match c.cachedFloat64Memory0 with
  | some v =>
    if v.byteLength m = 0 then
      ({ c with cachedFloat64Memory0 := some { buffer := m.buffer } }, { buffer := m.buffer })
    else (c, v)
  | none =>
    ({ c with cachedFloat64Memory0 := some { buffer := m.buffer } }, { buffer := m.buffer })

/-! ## Initialisation -/

/-- What initialisation does to the outside: `__wbg_get_imports()` builds an import
table, a module is instantiated, `wasm.__wbindgen_start()` is called. -/
inductive InitEvent where
  | getImports
  | instantiate
  | start (exports : Nat)
  deriving DecidableEq

/-- Whether the event is a call of `wasm.__wbindgen_start`. -/
def InitEvent.isStart : InitEvent → Bool
  | InitEvent.start _ => true
  | _ => false

/-- The result `{ instance, module }` of an instantiation: the exports object of the
instance and the module, each known by its identity. -/
structure Instantiated where
  exports : Nat
  module : Nat
  deriving DecidableEq

/-- The module-level variables that initialisation touches: `wasm` (`none` is
`undefined`), `__wbg_init.__wbindgen_wasm_module`, the four caches, the events, and the
number of calls of `__wbg_init` that are suspended at their `await`. -/
structure InitState where
  wasm : Option Nat
  wasmModule : Option Nat
  caches : Caches
  log : List InitEvent
  suspended : Nat
  deriving DecidableEq

/-- The state when the script has been loaded: `let wasm;` and all caches `null`. -/
def InitState.initial : InitState :=
  { wasm := none, wasmModule := none, caches := Caches.empty, log := [], suspended := 0 }

/-- `__wbg_finalize_init(instance, module)`: sets `wasm`, records the module, resets the
four caches, calls `wasm.__wbindgen_start()` and returns `wasm`.  `startThrows` is what
the call of the entry point does: `none` when it returns, `some e` when it throws or
traps, in which case the exception leaves `__wbg_finalize_init` with `wasm` already
set. -/
def __wbg_finalize_init (s : InitState) (inst : Instantiated) (startThrows : Option JsError) :
    InitState × Except JsError Nat :=
  let s1 : InitState :=
    { wasm := some inst.exports, wasmModule := some inst.module, caches := Caches.empty,
      log := s.log ++ [InitEvent.start inst.exports], suspended := s.suspended }
  match startThrows with
  | none => (s1, Except.ok inst.exports)
  | some e => (s1, Except.error e)

/-- `initSync(module)`.  `outcome` is what `new WebAssembly.Module` and
`new WebAssembly.Instance(module, imports)` produce when they are evaluated: an instance,
or the exception they throw. -/
def initSync (s : InitState) (outcome : Except JsError Instantiated)
    (startThrows : Option JsError) : InitState × Except JsError Nat :=
  match s.wasm with
  | some w => (s, Except.ok w)
  | none =>
    let s1 := { s with log := s.log ++ [InitEvent.getImports] }
    match outcome with
    | Except.error e => (s1, Except.error e)
    | Except.ok inst =>
      __wbg_finalize_init { s1 with log := s1.log ++ [InitEvent.instantiate] } inst startThrows

/-- The asynchronous function `__wbg_init(input)` from its call to its first `await`:
`if (wasm !== undefined) return wasm;`, otherwise the import table is built and the
call is suspended at `await __wbg_load(await input, imports)`.  The result is
`some wasm` when the call has completed and `none` when it is suspended. -/
def __wbg_init_begin (s : InitState) : InitState × Option Nat :=
  match s.wasm with
  | some w => (s, some w)
  | none =>
    ({ s with log := s.log ++ [InitEvent.getImports], suspended := s.suspended + 1 }, none)

/-- A suspended call of `__wbg_init` after its `await`:
`const { instance, module } = await __wbg_load(...); return __wbg_finalize_init(instance, module);`.
`outcome` is what the awaited promise settles with.  There is no second test of `wasm`. -/
def __wbg_init_resume (s : InitState) (outcome : Except JsError Instantiated)
    (startThrows : Option JsError) : InitState × Except JsError Nat :=
  let s1 := { s with suspended := s.suspended - 1 }
  match outcome with
  | Except.error e => (s1, Except.error e)
  | Except.ok inst =>
    __wbg_finalize_init { s1 with log := s1.log ++ [InitEvent.instantiate] } inst startThrows

/-- A call of `__wbg_init(input)` during which nothing else runs. -/
def __wbg_init (s : InitState) (outcome : Except JsError Instantiated)
    (startThrows : Option JsError) : InitState × Except JsError Nat :=
  match __wbg_init_begin s with
  | (s1, some w) => (s1, Except.ok w)
  | (s1, none) => __wbg_init_resume s1 outcome startThrows

/-- What the host does with the two initialisation functions: a call of `initSync`, a
call of `__wbg_init` (up to its `await`), the resumption of a suspended call of
`__wbg_init`. -/
inductive InitCall where
  | sync (outcome : Except JsError Instantiated) (startThrows : Option JsError)
  | asyncBegin
  | asyncResume (outcome : Except JsError Instantiated) (startThrows : Option JsError)

/-- Whether the step resumes a suspended call. -/
def InitCall.isResume : InitCall → Bool
  | InitCall.asyncResume _ _ => true
  | _ => false

/-- One step; the new state and the result of the call that completed in this step, if
one did.  `none` marks a step that cannot happen: a resumption when no call is
suspended. -/
def InitState.call (s : InitState) :
    InitCall → Option (InitState × Option (Except JsError Nat))
  | InitCall.sync outcome startThrows =>
    some ((initSync s outcome startThrows).1, some (initSync s outcome startThrows).2)
  | InitCall.asyncBegin =>
    some ((__wbg_init_begin s).1, (__wbg_init_begin s).2.map Except.ok)
  | InitCall.asyncResume outcome startThrows =>
    if s.suspended = 0 then none
    else some ((__wbg_init_resume s outcome startThrows).1,
      some (__wbg_init_resume s outcome startThrows).2)

/-- A sequence of steps; the final state and the results of the calls that completed,
in the order of their completion. -/
def InitState.calls (s : InitState) :
    List InitCall → Option (InitState × List (Except JsError Nat))
  | [] => some (s, [])
  | c :: cs =>
    match s.call c with
    | none => none
    | some (s1, r) =>
      match InitState.calls s1 cs with
      | none => none
      | some (s2, rs) => some (s2, r.toList ++ rs)

/-! ## Array lemmas -/

theorem getD_arraySet_same (a : List JsValue) (i : Nat) (v : JsValue) :
    (arraySet a i v).getD i JsValue.undefined = v := by
  unfold arraySet
  split
  · rename_i h
    simp [List.getD_eq_getElem?_getD, List.getElem?_set, h]
  · rename_i h
    have hlen : (a ++ List.replicate (i - a.length) JsValue.undefined).length = i := by
      simp; omega
    rw [List.getD_eq_getElem?_getD, List.getElem?_append_right (by omega)]
    simp [hlen]

theorem getD_arraySet_other (a : List JsValue) (i j : Nat) (v : JsValue) (hij : j ≠ i) :
    (arraySet a i v).getD j JsValue.undefined = a.getD j JsValue.undefined := by
  unfold arraySet
  split
  · simp [List.getD_eq_getElem?_getD, List.getElem?_set, Ne.symm hij]
  · rename_i h
    simp only [List.getD_eq_getElem?_getD]
    by_cases hj : j < a.length
    · rw [List.append_assoc, List.getElem?_append_left hj]
    · have h1 : a[j]? = none := List.getElem?_eq_none (by omega)
      rw [h1]
      by_cases hj2 : j < i
      · rw [List.getElem?_append_left (by simp; omega),
          List.getElem?_append_right (by omega)]
        simp only [List.getElem?_replicate]
        split <;> rfl
      · rw [List.getElem?_eq_none (by simp; omega)]

theorem length_arraySet (a : List JsValue) (i : Nat) (v : JsValue) :
    (arraySet a i v).length = max a.length (i + 1) := by
  unfold arraySet
  split
  · simp; omega
  · simp; omega

theorem arrayGet_arraySet_same (a : List JsValue) (i : Int) (v : JsValue) (hi : 0 ≤ i) :
    arrayGet (arraySet a i.toNat v) i = v := by
  unfold arrayGet
  rw [if_neg (by omega)]
  exact getD_arraySet_same a i.toNat v

theorem arrayGet_arraySet_other (a : List JsValue) (i j : Int) (v : JsValue) (hi : 0 ≤ i)
    (hij : j ≠ i) : arrayGet (arraySet a i.toNat v) j = arrayGet a j := by
  unfold arrayGet
  split
  · rfl
  · exact getD_arraySet_other a i.toNat j.toNat v (by omega)

theorem length_arraySet_of_lt (a : List JsValue) (i : Int) (v : JsValue) (hi : 0 ≤ i)
    (h : i < a.length) : (arraySet a i.toNat v).length = a.length := by
  rw [length_arraySet]
  omega

theorem arrayGet_push_of_lt (a : List JsValue) (x : JsValue) (j : Int) (h : j < a.length) :
    arrayGet (a ++ [x]) j = arrayGet a j := by
  unfold arrayGet
  split
  · rfl
  · simp only [List.getD_eq_getElem?_getD]
    rw [List.getElem?_append_left (by omega)]

theorem arrayGet_push_length (a : List JsValue) (x : JsValue) :
    arrayGet (a ++ [x]) a.length = x := by
  unfold arrayGet
  rw [if_neg (by omega)]
  simp [List.getD_eq_getElem?_getD]

theorem arrayGet_of_length_le (a : List JsValue) (j : Int) (h : (a.length : Int) ≤ j) :
    arrayGet a j = JsValue.undefined := by
  unfold arrayGet
  split
  · rfl
  · simp only [List.getD_eq_getElem?_getD]
    rw [List.getElem?_eq_none (by omega)]
    rfl

theorem arrayGet_of_neg (a : List JsValue) (j : Int) (h : j < 0) :
    arrayGet a j = JsValue.undefined := by
  unfold arrayGet
  rw [if_pos h]

/-! ## Preservation of the free list invariant -/

theorem FreeChain.arraySet {heap : List JsValue} {fs : List Int} {nxt : JsValue}
    (h : FreeChain heap fs nxt) (i : Int) (v : JsValue) (hi : 0 ≤ i)
    (hlt : i < heap.length) (hnot : i ∉ fs) : FreeChain (arraySet heap i.toNat v) fs nxt := by
  induction fs generalizing nxt with
  | nil =>
    simp only [FreeChain] at h ⊢
    rw [length_arraySet_of_lt heap i v hi hlt]
    exact h
  | cons f fs ih =>
    simp only [FreeChain] at h ⊢
    simp only [List.mem_cons, not_or] at hnot
    refine ⟨h.1, ?_⟩
    rw [arrayGet_arraySet_other heap i f v hi (Ne.symm hnot.1)]
    exact ih h.2 hnot.2

theorem isLive_iff (t : Tracked) (h : Int) : t.isLive h = true ↔ ∃ v, (h, v) ∈ t.live := by
  simp [Tracked.isLive]

theorem mem_release {live : List (Int × JsValue)} {h k : Int} {v : JsValue} :
    (k, v) ∈ release live h ↔ (k, v) ∈ live ∧ k ≠ h := by
  simp [release]

theorem inv_init : Inv Tracked.init [] where
  chain := by simp [FreeChain, Tracked.init, initialHeap]
  free_nodup := List.nodup_nil
  free_ok := by simp
  live_ok := by simp [Tracked.init]
  low := fun _ _ => rfl
  len := by simp [Tracked.init, initialHeap]

theorem inv_add_nil {t : Tracked} (hinv : Inv t []) (v : JsValue) :
    ∃ s, addHeapObject t.st v = some (s, (t.st.heap.length : Int)) ∧
      Inv { st := s, live := ((t.st.heap.length : Int), v) :: t.live } [] := by
  have hnext : t.st.heap_next = JsValue.number t.st.heap.length := hinv.chain
  have hlen := hinv.len
  have hnn : (0 : Int) ≤ (t.st.heap.length : Int) := by omega
  refine ⟨⟨arraySet (t.st.heap ++ [JsValue.number ((t.st.heap.length : Int) + 1)])
      (t.st.heap.length : Int).toNat v,
      arrayGet (t.st.heap ++ [JsValue.number ((t.st.heap.length : Int) + 1)])
        (t.st.heap.length : Int)⟩, ?_, ?_⟩
  · simp only [addHeapObject, hnext, if_true, if_pos hnn]
  · have hL : (arraySet (t.st.heap ++ [JsValue.number ((t.st.heap.length : Int) + 1)])
        (t.st.heap.length : Int).toNat v).length = t.st.heap.length + 1 := by
      rw [length_arraySet_of_lt _ _ _ hnn (by simp)]
      simp
    constructor
    · simp only [FreeChain]
      rw [arrayGet_push_length, hL]
      simp
    · exact List.nodup_nil
    · simp
    · intro h w hmem
      simp only [List.mem_cons, Prod.mk.injEq] at hmem
      rcases hmem with ⟨rfl, rfl⟩ | hmem
      · refine ⟨by omega, by rw [hL]; omega, ?_⟩
        exact arrayGet_arraySet_same _ _ _ hnn
      · obtain ⟨h1, h2, h3⟩ := hinv.live_ok h w hmem
        refine ⟨h1, by rw [hL]; omega, ?_⟩
        show arrayGet (arraySet _ _ _) h = w
        rw [arrayGet_arraySet_other _ _ _ _ hnn (by omega), arrayGet_push_of_lt _ _ _ h2]
        exact h3
    · intro i hi
      show arrayGet (arraySet _ _ _) i = _
      rw [arrayGet_arraySet_other _ _ _ _ hnn (by omega),
        arrayGet_push_of_lt _ _ _ (by omega)]
      exact hinv.low i hi
    · show 132 ≤ (arraySet _ _ _).length
      rw [hL]; omega

theorem inv_add_cons {t : Tracked} {f : Int} {fs : List Int} (hinv : Inv t (f :: fs))
    (v : JsValue) :
    ∃ s, addHeapObject t.st v = some (s, f) ∧
      Inv { st := s, live := (f, v) :: t.live } fs ∧ s.heap.length = t.st.heap.length := by
  have hnext : t.st.heap_next = JsValue.number f := hinv.chain.1
  have hchain : FreeChain t.st.heap fs (arrayGet t.st.heap f) := hinv.chain.2
  obtain ⟨hf1, hf2, hf3⟩ := hinv.free_ok f (List.mem_cons_self _ _)
  have hnn : (0 : Int) ≤ f := by omega
  have hne : ¬ (JsValue.number f = JsValue.number (t.st.heap.length : Int)) := by
    intro h
    injection h with h
    omega
  have hnd := List.nodup_cons.mp hinv.free_nodup
  have hL : (arraySet t.st.heap f.toNat v).length = t.st.heap.length :=
    length_arraySet_of_lt _ _ _ hnn hf2
  refine ⟨⟨arraySet t.st.heap f.toNat v, arrayGet t.st.heap f⟩, ?_, ?_, ?_⟩
  · simp only [addHeapObject, hnext, if_neg hne, if_pos hnn]
  · constructor
    · exact hchain.arraySet f v hnn hf2 hnd.1
    · exact hnd.2
    · intro g hg
      obtain ⟨g1, g2, g3⟩ := hinv.free_ok g (List.mem_cons_of_mem _ hg)
      refine ⟨g1, by show g < ((arraySet _ _ _).length : Int); rw [hL]; exact g2, ?_⟩
      intro w hmem
      simp only [List.mem_cons, Prod.mk.injEq] at hmem
      rcases hmem with ⟨rfl, _⟩ | hmem
      · exact hnd.1 hg
      · exact g3 w hmem
    · intro h w hmem
      simp only [List.mem_cons, Prod.mk.injEq] at hmem
      rcases hmem with ⟨rfl, rfl⟩ | hmem
      · refine ⟨hf1, by show h < ((arraySet _ _ _).length : Int); rw [hL]; exact hf2, ?_⟩
        exact arrayGet_arraySet_same _ _ _ hnn
      · obtain ⟨h1, h2, h3⟩ := hinv.live_ok h w hmem
        refine ⟨h1, by show h < ((arraySet _ _ _).length : Int); rw [hL]; exact h2, ?_⟩
        have hne2 : h ≠ f := by
          rintro rfl
          exact hf3 w hmem
        show arrayGet (arraySet _ _ _) h = w
        rw [arrayGet_arraySet_other _ _ _ _ hnn hne2]
        exact h3
    · intro i hi
      show arrayGet (arraySet _ _ _) i = _
      rw [arrayGet_arraySet_other _ _ _ _ hnn (by omega)]
      exact hinv.low i hi
    · show 132 ≤ (arraySet _ _ _).length
      rw [hL]; exact hinv.len
  · exact hL

theorem inv_drop {t : Tracked} {free : List Int} (hinv : Inv t free) {h : Int}
    (hlive : t.isLive h = true) :
    Inv { st := dropObject t.st h, live := release t.live h } (h :: free) ∧
      (dropObject t.st h).heap.length = t.st.heap.length := by
  obtain ⟨v0, hv0⟩ := (isLive_iff t h).mp hlive
  obtain ⟨h1, h2, _⟩ := hinv.live_ok h v0 hv0
  have hnn : (0 : Int) ≤ h := by omega
  have hnot : h ∉ free := fun hm => (hinv.free_ok h hm).2.2 v0 hv0
  have hd : dropObject t.st h =
      { heap := arraySet t.st.heap h.toNat t.st.heap_next, heap_next := JsValue.number h } := by
    simp only [dropObject, if_neg (show ¬ h < 132 by omega)]
  have hL : (arraySet t.st.heap h.toNat t.st.heap_next).length = t.st.heap.length :=
    length_arraySet_of_lt _ _ _ hnn h2
  rw [hd]
  refine ⟨?_, hL⟩
  constructor
  · refine ⟨rfl, ?_⟩
    show FreeChain (arraySet _ _ _) free (arrayGet (arraySet _ _ _) h)
    rw [arrayGet_arraySet_same _ _ _ hnn]
    exact hinv.chain.arraySet h _ hnn h2 hnot
  · exact List.nodup_cons.mpr ⟨hnot, hinv.free_nodup⟩
  · intro g hg
    simp only [List.mem_cons] at hg
    rcases hg with rfl | hg
    · refine ⟨h1, by show g < ((arraySet _ _ _).length : Int); rw [hL]; exact h2, ?_⟩
      intro w hmem
      exact (mem_release.mp hmem).2 rfl
    · obtain ⟨g1, g2, g3⟩ := hinv.free_ok g hg
      refine ⟨g1, by show g < ((arraySet _ _ _).length : Int); rw [hL]; exact g2, ?_⟩
      intro w hmem
      exact g3 w (mem_release.mp hmem).1
  · intro k w hmem
    obtain ⟨hm, hne⟩ := mem_release.mp hmem
    obtain ⟨k1, k2, k3⟩ := hinv.live_ok k w hm
    refine ⟨k1, by show k < ((arraySet _ _ _).length : Int); rw [hL]; exact k2, ?_⟩
    show arrayGet (arraySet _ _ _) k = w
    rw [arrayGet_arraySet_other _ _ _ _ hnn hne]
    exact k3
  · intro i hi
    show arrayGet (arraySet _ _ _) i = _
    rw [arrayGet_arraySet_other _ _ _ _ hnn (by omega)]
    exact hinv.low i hi
  · show 132 ≤ (arraySet _ _ _).length
    rw [hL]; exact hinv.len

theorem inv_add {t : Tracked} {free : List Int} (hinv : Inv t free) (v : JsValue) :
    ∃ s h, addHeapObject t.st v = some (s, h) ∧
      Inv { st := s, live := (h, v) :: t.live } free.tail ∧ ∀ w, (h, w) ∉ t.live := by
  cases free with
  | nil =>
    obtain ⟨s, h1, h2⟩ := inv_add_nil hinv v
    refine ⟨s, _, h1, h2, ?_⟩
    intro w hmem
    have := (hinv.live_ok _ w hmem).2.1
    omega
  | cons f fs =>
    obtain ⟨s, h1, h2, _⟩ := inv_add_cons hinv v
    exact ⟨s, f, h1, h2, (hinv.free_ok f (List.mem_cons_self _ _)).2.2⟩

theorem inv_step {t t1 : Tracked} {free : List Int} (hinv : Inv t free) (op : HeapOp)
    (hstep : t.step op = some t1) : ∃ free1, Inv t1 free1 := by
  cases op with
  | add v =>
    obtain ⟨s, h, h1, h2, _⟩ := inv_add hinv v
    simp only [Tracked.step, h1, Option.some.injEq] at hstep
    subst hstep
    exact ⟨_, h2⟩
  | drop h =>
    simp only [Tracked.step] at hstep
    split at hstep
    · rename_i hl
      simp only [Option.some.injEq] at hstep
      subst hstep
      exact ⟨_, (inv_drop hinv hl).1⟩
    · cases hstep
  | take h =>
    simp only [Tracked.step, takeObject] at hstep
    split at hstep
    · rename_i hl
      simp only [Option.some.injEq] at hstep
      subst hstep
      exact ⟨_, (inv_drop hinv hl).1⟩
    · cases hstep

theorem inv_run {t t1 : Tracked} {free : List Int} (hinv : Inv t free) (ops : List HeapOp)
    (hrun : t.run ops = some t1) : ∃ free1, Inv t1 free1 := by
  induction ops generalizing t free with
  | nil =>
    simp only [Tracked.run, Option.some.injEq] at hrun
    subst hrun
    exact ⟨_, hinv⟩
  | cons op ops ih =>
    simp only [Tracked.run] at hrun
    cases hs : t.step op with
    | none => rw [hs] at hrun; cases hrun
    | some t2 =>
      rw [hs] at hrun
      obtain ⟨free2, hinv2⟩ := inv_step hinv op hs
      exact ih hinv2 hrun

theorem inv_reachable {ops : List HeapOp} {t : Tracked}
    (hrun : Tracked.init.run ops = some t) : ∃ free, Inv t free :=
  inv_run inv_init ops hrun

theorem inv_dropMany {t : Tracked} {free : List Int} (hinv : Inv t free) (hs : List Int)
    (hnd : hs.Nodup) (hlive : ∀ h ∈ hs, t.isLive h = true) :
    ∃ live1, Inv { st := dropMany t.st hs, live := live1 } (hs.reverse ++ free) ∧
      (dropMany t.st hs).heap.length = t.st.heap.length := by
  induction hs generalizing t free with
  | nil => exact ⟨t.live, by simpa [dropMany] using hinv, rfl⟩
  | cons h hs ih =>
    obtain ⟨hh, hnd1⟩ := List.nodup_cons.mp hnd
    obtain ⟨hinv1, hlen1⟩ := inv_drop hinv (hlive h (List.mem_cons_self _ _))
    have hlive1 : ∀ k ∈ hs,
        Tracked.isLive { st := dropObject t.st h, live := release t.live h } k = true := by
      intro k hk
      obtain ⟨w, hw⟩ := (isLive_iff t k).mp (hlive k (List.mem_cons_of_mem _ hk))
      refine (isLive_iff _ k).mpr ⟨w, mem_release.mpr ⟨hw, ?_⟩⟩
      rintro rfl
      exact hh hk
    obtain ⟨live2, hinv2, hlen2⟩ := ih hinv1 hnd1 hlive1
    refine ⟨live2, ?_, ?_⟩
    · simpa [dropMany, List.reverse_cons, List.append_assoc] using hinv2
    · simp only [dropMany]
      rw [hlen2]
      exact hlen1

theorem inv_addMany {t : Tracked} (fs1 : List Int) {fs2 : List Int}
    (hinv : Inv t (fs1 ++ fs2)) (vs : List JsValue) (hlen : vs.length = fs1.length) :
    ∃ s live1, addMany t.st vs = some (s, fs1) ∧ Inv { st := s, live := live1 } fs2 ∧
      s.heap.length = t.st.heap.length := by
  induction fs1 generalizing t vs with
  | nil =>
    cases vs with
    | nil => exact ⟨t.st, t.live, rfl, by simpa using hinv, rfl⟩
    | cons v vs => simp at hlen
  | cons f fs1 ih =>
    cases vs with
    | nil => simp at hlen
    | cons v vs =>
      simp only [List.length_cons, add_left_inj] at hlen
      obtain ⟨s1, hadd, hinv1, hlen1⟩ := inv_add_cons (by simpa using hinv) v
      obtain ⟨s2, live2, hmany, hinv2, hlen2⟩ := ih hinv1 vs hlen
      refine ⟨s2, live2, ?_, hinv2, ?_⟩
      · simp only [addMany, hadd]
        simp only [hmany]
      · rw [hlen2]; exact hlen1

/-! ## Claims about the handle table -/

/-- C1: from the initial table, after any sequence of addHeapObject / dropObject /
takeObject calls that releases only live handles, a handle `h` returned by
`addHeapObject(v)` and not released since satisfies `getObject(h) = v`. -/
theorem C1_live_handle_reads_its_value (ops : List HeapOp) (t : Tracked)
    (hrun : Tracked.init.run ops = some t) (h : Int) (v : JsValue)
    (hlive : (h, v) ∈ t.live) : getObject t.st h = v := by
  obtain ⟨free, hinv⟩ := inv_reachable hrun
  exact (hinv.live_ok h v hlive).2.2

/-- C2: in every state reached from the initial table under the release discipline,
`addHeapObject` returns (it does not leave the modelled table) and the index it returns
is not a live handle. -/
theorem C2_allocated_index_is_not_live (ops : List HeapOp) (t : Tracked)
    (hrun : Tracked.init.run ops = some t) (v : JsValue) :
    ∃ s h, addHeapObject t.st v = some (s, h) ∧ t.isLive h = false := by
  obtain ⟨free, hinv⟩ := inv_reachable hrun
  obtain ⟨s, h, hadd, _, hnot⟩ := inv_add hinv v
  refine ⟨s, h, hadd, ?_⟩
  cases hl : t.isLive h with
  | false => rfl
  | true =>
    obtain ⟨w, hw⟩ := (isLive_iff t h).mp hl
    exact absurd hw (hnot w)

/-- C3: free-slot reuse is LIFO.  In every state reached under the discipline, a live
handle `h` is at least 132 and after `dropObject(h)` the next `addHeapObject` returns `h`
without growing the table; and after dropping distinct live handles `hs` in order, the
next `hs.length` calls of `addHeapObject` return the handles of `hs` in reverse order,
again without growing the table. -/
theorem C3_free_slots_are_reused_lifo (ops : List HeapOp) (t : Tracked)
    (hrun : Tracked.init.run ops = some t) :
    (∀ h, t.isLive h = true → 132 ≤ h ∧ ∀ x, ∃ s,
        addHeapObject (dropObject t.st h) x = some (s, h) ∧
          s.heap.length = t.st.heap.length) ∧
    (∀ hs : List Int, hs.Nodup → (∀ h ∈ hs, t.isLive h = true) →
      ∀ vs : List JsValue, vs.length = hs.length → ∃ s,
        addMany (dropMany t.st hs) vs = some (s, hs.reverse) ∧
          s.heap.length = t.st.heap.length) := by
  obtain ⟨free, hinv⟩ := inv_reachable hrun
  constructor
  · intro h hl
    obtain ⟨w, hw⟩ := (isLive_iff t h).mp hl
    refine ⟨(hinv.live_ok h w hw).1, ?_⟩
    intro x
    obtain ⟨hinv1, hlen1⟩ := inv_drop hinv hl
    obtain ⟨s, hadd, _, hlen2⟩ := inv_add_cons hinv1 x
    exact ⟨s, hadd, by rw [hlen2]; exact hlen1⟩
  · intro hs hnd hlive vs hlen
    obtain ⟨live1, hinv1, hlen1⟩ := inv_dropMany hinv hs hnd hlive
    obtain ⟨s, live2, hmany, _, hlen2⟩ :=
      inv_addMany (t := { st := dropMany t.st hs, live := live1 }) hs.reverse hinv1 vs
        (by simpa using hlen)
    exact ⟨s, hmany, by rw [hlen2]; exact hlen1⟩

set_option maxRecDepth 100000 in
theorem sampleOps_run : Tracked.init.run sampleOps = some sampleTracked := by
  decide

set_option maxRecDepth 100000 in
theorem sampleTracked_live : sampleTracked.live =
    [(134, JsValue.other 4), (132, JsValue.other 3), (133, JsValue.other 2)] := by
  decide

/-- Witness of C1 on `sampleOps`: handles 133, 132 and 134 are live and read back the
values 2, 3 and 4 they were allocated for. -/
theorem C1_live_handle_reads_its_value_witness :
    Tracked.init.run sampleOps = some sampleTracked ∧
      (133, JsValue.other 2) ∈ sampleTracked.live ∧
      getObject sampleTracked.st 133 = JsValue.other 2 :=
  ⟨sampleOps_run, by simp [sampleTracked_live],
    C1_live_handle_reads_its_value sampleOps sampleTracked sampleOps_run 133
      (JsValue.other 2) (by simp [sampleTracked_live])⟩

/-- Witness of C2 on `sampleOps`: the next allocation returns an index that is not
live. -/
theorem C2_allocated_index_is_not_live_witness :
    Tracked.init.run sampleOps = some sampleTracked ∧
      ∃ s h, addHeapObject sampleTracked.st (JsValue.other 9) = some (s, h) ∧
        sampleTracked.isLive h = false :=
  ⟨sampleOps_run,
    C2_allocated_index_is_not_live sampleOps sampleTracked sampleOps_run (JsValue.other 9)⟩

/-- Witness of C3 on `sampleOps`: dropping 133 then 132 makes the next two allocations
return 132 then 133. -/
theorem C3_free_slots_are_reused_lifo_witness :
    Tracked.init.run sampleOps = some sampleTracked ∧
      ∃ s, addMany (dropMany sampleTracked.st [133, 132])
          [JsValue.other 7, JsValue.other 8] = some (s, [132, 133]) ∧
        s.heap.length = sampleTracked.st.heap.length :=
  ⟨sampleOps_run,
    (C3_free_slots_are_reused_lifo sampleOps sampleTracked sampleOps_run).2 [133, 132]
      (by decide) (by simp [Tracked.isLive, sampleTracked_live])
      [JsValue.other 7, JsValue.other 8] rfl⟩

/-- C15 (as stated, refuted): `getObject` returns a value, `undefined`, at the
out-of-range handles 132 and -1 of the initial 132-slot table; it does not fail. -/
theorem C15_out_of_range_read_returns_undefined_example :
    initialHeap.heap.length = 132 ∧
      getObject initialHeap 132 = JsValue.undefined ∧
      getObject initialHeap (-1) = JsValue.undefined := by
  refine ⟨rfl, rfl, rfl⟩

/-- C15 (amended): for every table and every handle `idx` out of range (`idx < 0` or
`idx >= heap.length`), `getObject(idx)` returns the value `undefined`. -/
theorem C15_getObject_out_of_range (s : HeapState) (idx : Int)
    (hout : idx < 0 ∨ (s.heap.length : Int) ≤ idx) : getObject s idx = JsValue.undefined := by
  rcases hout with h | h
  · exact arrayGet_of_neg _ _ h
  · exact arrayGet_of_length_le _ _ h

/-- Witness of C15 (amended) at handle 500 of the initial table. -/
theorem C15_getObject_out_of_range_witness :
    ((500 : Int) < 0 ∨ (initialHeap.heap.length : Int) ≤ 500) ∧
      getObject initialHeap 500 = JsValue.undefined :=
  ⟨Or.inr (by simp [initialHeap]),
    C15_getObject_out_of_range initialHeap 500 (Or.inr (by simp [initialHeap]))⟩

/-- C16: `dropObject(idx)` and `takeObject(idx)` with `idx < 132` leave the table
unchanged; in every state reached under the discipline `addHeapObject` returns an index
of at least 132, slots below 132 hold their initial values, and handles 128..131 read
`undefined`, `null`, `true`, `false`. -/
theorem C16_reserved_range_is_permanent :
    (∀ (s : HeapState) (idx : Int), idx < 132 →
      dropObject s idx = s ∧ (takeObject s idx).1 = s) ∧
    (∀ (ops : List HeapOp) (t : Tracked), Tracked.init.run ops = some t →
      (∀ v, ∃ s h, addHeapObject t.st v = some (s, h) ∧ 132 ≤ h) ∧
      (∀ i : Int, i < 132 → getObject t.st i = getObject initialHeap i) ∧
      getObject t.st 128 = JsValue.undefined ∧ getObject t.st 129 = JsValue.null ∧
      getObject t.st 130 = JsValue.bool true ∧ getObject t.st 131 = JsValue.bool false) := by
  constructor
  · intro s idx h
    simp [dropObject, takeObject, h]
  · intro ops t hrun
    obtain ⟨free, hinv⟩ := inv_reachable hrun
    refine ⟨?_, hinv.low, ?_, ?_, ?_, ?_⟩
    · intro v
      obtain ⟨s, h, hadd, hinv1, _⟩ := inv_add hinv v
      exact ⟨s, h, hadd, (hinv1.live_ok h v (List.mem_cons_self _ _)).1⟩
    · exact (hinv.low 128 (by decide)).trans rfl
    · exact (hinv.low 129 (by decide)).trans rfl
    · exact (hinv.low 130 (by decide)).trans rfl
    · exact (hinv.low 131 (by decide)).trans rfl

/-- Witness of C16 on `sampleOps`: handle 131 still reads `false` and the next
allocation returns an index of at least 132. -/
theorem C16_reserved_range_is_permanent_witness :
    Tracked.init.run sampleOps = some sampleTracked ∧
      getObject sampleTracked.st 131 = JsValue.bool false ∧
      ∃ s h, addHeapObject sampleTracked.st JsValue.null = some (s, h) ∧ 132 ≤ h :=
  ⟨sampleOps_run,
    (C16_reserved_range_is_permanent.2 sampleOps sampleTracked sampleOps_run).2.2.2.2.2,
    (C16_reserved_range_is_permanent.2 sampleOps sampleTracked sampleOps_run).1 JsValue.null⟩

/-- C17: the table does not detect a double release.  For every table and every handle
`h >= 132`, two calls `dropObject(h)` in a row leave `heap[h] = h` and `heap_next = h`;
then `addHeapObject(x)` and `addHeapObject(y)` both return `h`, `getObject(h)` is `y`, and
`heap_next` is left holding `x`. -/
theorem C17_double_release_is_not_detected (s : HeapState) (h : Int) (hh : 132 ≤ h)
    (x y : JsValue) :
    getObject (dropObject (dropObject s h) h) h = JsValue.number h ∧
      (dropObject (dropObject s h) h).heap_next = JsValue.number h ∧
      ∃ s3 s4, addHeapObject (dropObject (dropObject s h) h) x = some (s3, h) ∧
        addHeapObject s3 y = some (s4, h) ∧ getObject s4 h = y ∧ s4.heap_next = x := by
  have hnn : (0 : Int) ≤ h := by omega
  have hd : ∀ s1 : HeapState, dropObject s1 h =
      ⟨arraySet s1.heap h.toNat s1.heap_next, JsValue.number h⟩ := by
    intro s1
    simp only [dropObject, if_neg (show ¬ h < 132 by omega)]
  have hlen : ∀ (a : List JsValue) (v : JsValue),
      ¬ (JsValue.number h = JsValue.number ((arraySet a h.toNat v).length : Int)) := by
    intro a v heq
    injection heq with heq
    rw [length_arraySet] at heq
    omega
  rw [hd, hd]
  refine ⟨arrayGet_arraySet_same _ _ _ hnn, rfl, ?_⟩
  refine ⟨⟨arraySet (arraySet (arraySet s.heap h.toNat s.heap_next) h.toNat (JsValue.number h))
    h.toNat x, JsValue.number h⟩, ⟨arraySet (arraySet (arraySet (arraySet s.heap h.toNat
    s.heap_next) h.toNat (JsValue.number h)) h.toNat x) h.toNat y, x⟩, ?_, ?_, ?_, rfl⟩
  · simp only [addHeapObject, if_neg (hlen _ _), if_pos hnn,
      arrayGet_arraySet_same _ _ _ hnn]
  · simp only [addHeapObject, if_neg (hlen _ _), if_pos hnn,
      arrayGet_arraySet_same _ _ _ hnn]
  · exact arrayGet_arraySet_same _ _ _ hnn

/-- Witness of C17 at handle 132 of the initial table. -/
theorem C17_double_release_is_not_detected_witness :
    (132 : Int) ≤ 132 ∧
      ∃ s3 s4, addHeapObject (dropObject (dropObject initialHeap 132) 132)
          (JsValue.other 1) = some (s3, 132) ∧
        addHeapObject s3 (JsValue.other 2) = some (s4, 132) ∧
        getObject s4 132 = JsValue.other 2 ∧ s4.heap_next = JsValue.other 1 :=
  ⟨le_refl _, (C17_double_release_is_not_detected initialHeap 132 (le_refl _)
    (JsValue.other 1) (JsValue.other 2)).2.2⟩

/-! ## Linear memory lemmas -/

theorem getElem?_slice (mem : List Nat) (p n j : Nat) :
    (slice mem p n)[j]? = if j < n then mem[p + j]? else none := by
  unfold slice
  rw [List.getElem?_take]
  split
  · rw [List.getElem?_drop]
  · rfl

theorem length_slice (mem : List Nat) (p n : Nat) (h : p + n ≤ mem.length) :
    (slice mem p n).length = n := by
  simp only [slice, List.length_take, List.length_drop]
  omega

theorem slice_add (mem : List Nat) (p a b : Nat) :
    slice mem p (a + b) = slice mem p a ++ slice mem (p + a) b := by
  unfold slice
  rw [List.take_add, List.drop_drop]

theorem slice_prefix {m1 m2 : List Nat} {p q n : Nat} (k : Nat) (hk : k ≤ n)
    (h : slice m1 p n = slice m2 q n) : slice m1 p k = slice m2 q k := by
  have h1 : ∀ m r, slice m r k = (slice m r n).take k := by
    intro m r
    unfold slice
    rw [List.take_take, min_eq_left hk]
  rw [h1 m1 p, h1 m2 q, h]

theorem length_writeBytes (mem : List Nat) (p : Nat) (bs : List Nat)
    (h : p + bs.length ≤ mem.length) : (writeBytes mem p bs).length = mem.length := by
  unfold writeBytes
  simp
  omega

theorem getElem?_writeBytes (mem : List Nat) (p : Nat) (bs : List Nat) (j : Nat)
    (h : p ≤ mem.length) :
    (writeBytes mem p bs)[j]? =
      if j < p then mem[j]? else if j < p + bs.length then bs[j - p]? else mem[j]? := by
  unfold writeBytes
  have hl : (mem.take p).length = p := by simp; omega
  split
  · rename_i hj
    rw [List.append_assoc, List.getElem?_append_left (by omega), List.getElem?_take_of_lt hj]
  · rename_i hj
    rw [List.append_assoc, List.getElem?_append_right (by omega), hl]
    split
    · rename_i hj2
      rw [List.getElem?_append_left (by omega)]
    · rename_i hj2
      rw [List.getElem?_append_right (by omega), List.getElem?_drop]
      congr 1
      omega

theorem slice_writeBytes_same (mem : List Nat) (p : Nat) (bs : List Nat)
    (h : p + bs.length ≤ mem.length) : slice (writeBytes mem p bs) p bs.length = bs := by
  apply List.ext_getElem?
  intro j
  rw [getElem?_slice, getElem?_writeBytes _ _ _ _ (by omega)]
  by_cases hj : j < bs.length
  · rw [if_pos hj, if_neg (by omega), if_pos (by omega)]
    congr 1
    omega
  · rw [if_neg hj, List.getElem?_eq_none (by omega)]

theorem slice_writeBytes_before (mem : List Nat) (p : Nat) (bs : List Nat) (q n : Nat)
    (h : p ≤ mem.length) (hq : q + n ≤ p) :
    slice (writeBytes mem p bs) q n = slice mem q n := by
  apply List.ext_getElem?
  intro j
  rw [getElem?_slice, getElem?_slice, getElem?_writeBytes _ _ _ _ h]
  by_cases hj : j < n
  · rw [if_pos hj, if_pos hj, if_pos (by omega)]
  · rw [if_neg hj, if_neg hj]

theorem slice_set_before (mem : List Nat) (i v q n : Nat) (hq : q + n ≤ i) :
    slice (mem.set i v) q n = slice mem q n := by
  apply List.ext_getElem?
  intro j
  rw [getElem?_slice, getElem?_slice]
  by_cases hj : j < n
  · rw [if_pos hj, if_pos hj, List.getElem?_set_ne (by omega)]
  · rw [if_neg hj, if_neg hj]

theorem slice_set_same (mem : List Nat) (i v : Nat) (hi : i < mem.length) :
    slice (mem.set i v) i 1 = [v] := by
  apply List.ext_getElem?
  intro j
  rw [getElem?_slice]
  by_cases hj : j < 1
  · have : j = 0 := by omega
    subst this
    simp [hi]
  · rw [if_neg hj, List.getElem?_eq_none (by simp; omega)]

theorem asciiLoop_spec (ptr : Nat) (pre rest : List Nat) (off : Nat) (mem : List Nat)
    (hpre : ∀ c ∈ pre, c ≤ 0x7F) (hrest : ∀ c, rest.head? = some c → 0x7F < c)
    (hb : ptr + off + pre.length ≤ mem.length) :
    (asciiLoop ptr (pre ++ rest) off mem).1 = off + pre.length ∧
      (asciiLoop ptr (pre ++ rest) off mem).2.length = mem.length ∧
      slice (asciiLoop ptr (pre ++ rest) off mem).2 (ptr + off) pre.length = pre ∧
      ∀ q n, q + n ≤ ptr + off →
        slice (asciiLoop ptr (pre ++ rest) off mem).2 q n = slice mem q n := by
  induction pre generalizing off mem with
  | nil =>
    cases rest with
    | nil => simp [asciiLoop, slice]
    | cons c rest =>
      have hc : 0x7F < c := hrest c rfl
      simp [asciiLoop, hc, slice]
  | cons c pre ih =>
    have hc : c ≤ 0x7F := hpre c (List.mem_cons_self _ _)
    have hpre1 : ∀ x ∈ pre, x ≤ 0x7F := fun x hx => hpre x (List.mem_cons_of_mem _ hx)
    simp only [List.length_cons] at hb
    have hstep : asciiLoop ptr (c :: pre ++ rest) off mem =
        asciiLoop ptr (pre ++ rest) (off + 1) (mem.set (ptr + off) (c % 256)) := by
      simp only [List.cons_append, asciiLoop, if_neg (show ¬ c > 0x7F by omega)]
      rfl
    obtain ⟨h1, h2, h3, h4⟩ := ih (off + 1) (mem.set (ptr + off) (c % 256)) hpre1
      (by simp; omega)
    rw [hstep]
    refine ⟨by rw [h1, List.length_cons]; omega, by rw [h2]; simp, ?_, ?_⟩
    · rw [List.length_cons, Nat.add_comm pre.length 1, slice_add, h4 (ptr + off) 1 (by omega),
        slice_set_same _ _ _ (by omega), show ptr + off + 1 = ptr + (off + 1) by omega, h3]
      simp
      omega
    · intro q n hq
      rw [h4 q n (by omega), slice_set_before _ _ _ _ _ hq]

/-! ## UTF-8 lemmas -/

theorem utf8DecodeFrom_utf8Bytes_append (cp : Nat) (tail : List Nat) (h1 : cp < 0x110000)
    (h2 : ¬ (0xD800 ≤ cp ∧ cp ≤ 0xDFFF)) :
    utf8DecodeFrom Utf8State.start (utf8Bytes cp ++ tail) =
      (utf8DecodeFrom Utf8State.start tail).map (fun cps => cp :: cps) := by
  unfold utf8Bytes
  by_cases c1 : cp < 0x80
  · rw [if_pos c1]
    simp only [List.singleton_append, utf8DecodeFrom, Utf8State.start, if_true,
      if_pos (show cp ≤ 0x7F by omega)]
    rfl
  · rw [if_neg c1]
    by_cases c2 : cp < 0x800
    · rw [if_pos c2]
      simp only [List.cons_append, List.nil_append, utf8DecodeFrom, Utf8State.start, if_true]
      rw [if_neg (by omega), if_pos (by omega), if_neg (by omega), if_pos (by omega)]
      simp only [Nat.add_sub_cancel_left]
      rw [show cp / 64 * 64 + cp % 64 = cp by omega]
      rfl
    · rw [if_neg c2]
      by_cases c3 : cp < 0x10000
      · rw [if_pos c3]
        simp only [List.cons_append, List.nil_append, utf8DecodeFrom, Utf8State.start, if_true]
        rw [if_neg (by omega), if_neg (by omega), if_pos (by omega)]
        rw [if_neg (by omega), if_pos (by constructor <;> split <;> omega)]
        rw [if_neg (by omega), if_neg (by omega), if_pos (by omega)]
        simp only [Nat.add_sub_cancel_left]
        rw [show (cp / 4096 * 64 + cp / 64 % 64) * 64 + cp % 64 = cp by omega]
        rfl
      · rw [if_neg c3]
        simp only [List.cons_append, List.nil_append, utf8DecodeFrom, Utf8State.start, if_true]
        rw [if_neg (by omega), if_neg (by omega), if_neg (by omega), if_pos (by omega)]
        rw [if_neg (by omega), if_pos (by constructor <;> split <;> omega)]
        rw [if_neg (by omega), if_neg (by omega), if_pos (by omega)]
        rw [if_neg (by omega), if_neg (by omega), if_pos (by omega)]
        simp only [Nat.add_sub_cancel_left]
        rw [show ((cp / 262144 * 64 + cp / 4096 % 64) * 64 + cp / 64 % 64) * 64 + cp % 64 = cp
          by omega]
        rfl

theorem utf8Decode_utf8Encode (cps : List Nat)
    (h : ∀ cp ∈ cps, cp < 0x110000 ∧ ¬ (0xD800 ≤ cp ∧ cp ≤ 0xDFFF)) :
    utf8Decode (utf8Encode cps) = some cps := by
  induction cps with
  | nil => rfl
  | cons cp cps ih =>
    have hcp := h cp (List.mem_cons_self _ _)
    have ih1 := ih (fun x hx => h x (List.mem_cons_of_mem _ hx))
    unfold utf8Decode at ih1 ⊢
    rw [utf8Encode, utf8DecodeFrom_utf8Bytes_append cp _ hcp.1 hcp.2, ih1]
    rfl

/-! ## Strings and scalar values -/

theorem scalarsOf_pair (c d : Nat) (rest : List Nat) (hc : isHighSurrogate c = true)
    (hd : isLowSurrogate d = true) :
    scalarsOf (c :: d :: rest) =
      (0x10000 + (c - 0xD800) * 0x400 + (d - 0xDC00), 2) :: scalarsOf rest := by
  rw [scalarsOf.eq_def]
  simp [hc, hd]

theorem scalarsOf_loneHigh (c : Nat) (rest : List Nat) (hc : isHighSurrogate c = true)
    (hd : ∀ d, rest.head? = some d → isLowSurrogate d = false) :
    scalarsOf (c :: rest) = (0xFFFD, 1) :: scalarsOf rest := by
  rw [scalarsOf.eq_def]
  cases rest with
  | nil => simp [hc, scalarsOf]
  | cons d rest2 => simp [hc, hd d rfl]

theorem scalarsOf_loneLow (c : Nat) (rest : List Nat) (hc : isHighSurrogate c = false)
    (hl : isLowSurrogate c = true) : scalarsOf (c :: rest) = (0xFFFD, 1) :: scalarsOf rest := by
  rw [scalarsOf.eq_def]
  simp [hc, hl]

theorem scalarsOf_plain (c : Nat) (rest : List Nat) (hc : isHighSurrogate c = false)
    (hl : isLowSurrogate c = false) : scalarsOf (c :: rest) = (c, 1) :: scalarsOf rest := by
  rw [scalarsOf.eq_def]
  simp [hc, hl]

theorem wellFormed_pair (c d : Nat) (rest : List Nat) (hc : isHighSurrogate c = true)
    (hd : isLowSurrogate d = true) : wellFormed (c :: d :: rest) = wellFormed rest := by
  rw [wellFormed.eq_def]
  simp [hc, hd]

theorem wellFormed_loneHigh (c : Nat) (rest : List Nat) (hc : isHighSurrogate c = true)
    (hd : ∀ d, rest.head? = some d → isLowSurrogate d = false) :
    wellFormed (c :: rest) = false := by
  rw [wellFormed.eq_def]
  cases rest with
  | nil => simp [hc]
  | cons d rest2 => simp [hc, hd d rfl]

theorem wellFormed_loneLow (c : Nat) (rest : List Nat) (hc : isHighSurrogate c = false)
    (hl : isLowSurrogate c = true) : wellFormed (c :: rest) = false := by
  rw [wellFormed.eq_def]
  simp [hc, hl]

theorem wellFormed_plain (c : Nat) (rest : List Nat) (hc : isHighSurrogate c = false)
    (hl : isLowSurrogate c = false) :
    wellFormed (c :: rest) = (decide (c < 65536) && wellFormed rest) := by
  rw [wellFormed.eq_def]
  simp [hc, hl]

/-- Induction along the way `scalarsOf` reads a string. -/
theorem string_induction (P : List Nat → Prop) (hnil : P [])
    (hpair : ∀ c d rest, isHighSurrogate c = true → isLowSurrogate d = true → P rest →
      P (c :: d :: rest))
    (hloneHigh : ∀ c rest, isHighSurrogate c = true →
      (∀ d, rest.head? = some d → isLowSurrogate d = false) → P rest → P (c :: rest))
    (hloneLow : ∀ c rest, isHighSurrogate c = false → isLowSurrogate c = true → P rest →
      P (c :: rest))
    (hplain : ∀ c rest, isHighSurrogate c = false → isLowSurrogate c = false → P rest →
      P (c :: rest)) : ∀ s, P s := by
  have key : ∀ n (s : List Nat), s.length ≤ n → P s := by
    intro n
    induction n with
    | zero =>
      intro s hs
      cases s with
      | nil => exact hnil
      | cons c rest => simp at hs
    | succ n ih =>
      intro s hs
      cases s with
      | nil => exact hnil
      | cons c rest =>
        simp only [List.length_cons] at hs
        cases hc : isHighSurrogate c with
        | true =>
          cases rest with
          | nil => exact hloneHigh c [] hc (by simp) hnil
          | cons d rest2 =>
            simp only [List.length_cons] at hs
            cases hd : isLowSurrogate d with
            | true => exact hpair c d rest2 hc hd (ih rest2 (by omega))
            | false =>
              refine hloneHigh c (d :: rest2) hc ?_ (ih _ (by simp; omega))
              intro d1 h1
              simp only [List.head?_cons, Option.some.injEq] at h1
              subst h1
              exact hd
        | false =>
          cases hl : isLowSurrogate c with
          | true => exact hloneLow c rest hc hl (ih rest (by omega))
          | false => exact hplain c rest hc hl (ih rest (by omega))
  intro s
  exact key s.length s (le_refl _)

theorem IsString.tail {c : Nat} {rest : List Nat} (h : IsString (c :: rest)) : IsString rest :=
  fun x hx => h x (List.mem_cons_of_mem _ hx)

theorem IsString.drop {s : List Nat} (h : IsString s) (k : Nat) : IsString (s.drop k) :=
  fun x hx => h x (List.mem_of_mem_drop hx)

theorem scalarsOf_isScalar : ∀ s : List Nat, IsString s →
    ∀ cp ∈ (scalarsOf s).map Prod.fst, cp < 0x110000 ∧ ¬ (0xD800 ≤ cp ∧ cp ≤ 0xDFFF) := by
  apply string_induction
  · intro _ cp h
    simp [scalarsOf] at h
  · intro c d rest hc hd ih hs cp hcp
    rw [scalarsOf_pair c d rest hc hd] at hcp
    simp only [List.map_cons, List.mem_cons] at hcp
    rcases hcp with h | hcp
    · simp only [isHighSurrogate, isLowSurrogate, decide_eq_true_eq] at hc hd
      omega
    · exact ih hs.tail.tail cp hcp
  · intro c rest hc _ ih hs cp hcp
    rw [scalarsOf_loneHigh c rest hc (by assumption)] at hcp
    simp only [List.map_cons, List.mem_cons] at hcp
    rcases hcp with h | hcp
    · rw [h]
      omega
    · exact ih hs.tail cp hcp
  · intro c rest hc hl ih hs cp hcp
    rw [scalarsOf_loneLow c rest hc hl] at hcp
    simp only [List.map_cons, List.mem_cons] at hcp
    rcases hcp with h | hcp
    · rw [h]
      omega
    · exact ih hs.tail cp hcp
  · intro c rest hc hl ih hs cp hcp
    rw [scalarsOf_plain c rest hc hl] at hcp
    simp only [List.map_cons, List.mem_cons] at hcp
    rcases hcp with rfl | hcp
    · have hlt := hs cp (List.mem_cons_self _ _)
      simp only [isHighSurrogate, isLowSurrogate, decide_eq_false_iff_not] at hc hl
      omega
    · exact ih hs.tail cp hcp

theorem scalarsOf_units : ∀ s : List Nat, ((scalarsOf s).map Prod.snd).sum = s.length := by
  apply string_induction
  · rfl
  · intro c d rest hc hd ih
    rw [scalarsOf_pair c d rest hc hd]
    simp only [List.map_cons, List.sum_cons, List.length_cons, ih]
    omega
  · intro c rest hc hd ih
    rw [scalarsOf_loneHigh c rest hc hd]
    simp only [List.map_cons, List.sum_cons, List.length_cons, ih]
    omega
  · intro c rest hc hl ih
    rw [scalarsOf_loneLow c rest hc hl]
    simp only [List.map_cons, List.sum_cons, List.length_cons, ih]
    omega
  · intro c rest hc hl ih
    rw [scalarsOf_plain c rest hc hl]
    simp only [List.map_cons, List.sum_cons, List.length_cons, ih]
    omega

theorem length_utf8Bytes_le (cp : Nat) : (utf8Bytes cp).length ≤ 4 := by
  unfold utf8Bytes
  split
  · simp
  · split
    · simp
    · split <;> simp

theorem length_utf8Bytes_bmp (cp : Nat) (h : cp < 0x10000) : (utf8Bytes cp).length ≤ 3 := by
  unfold utf8Bytes
  rw [if_pos h]
  split
  · simp
  · split <;> simp

theorem length_textEncode_le : ∀ s : List Nat, IsString s →
    (textEncode s).length ≤ 3 * s.length := by
  unfold textEncode
  apply string_induction
  · intro _
    simp [scalarsOf, utf8Encode]
  · intro c d rest hc hd ih hs
    rw [scalarsOf_pair c d rest hc hd]
    have := ih hs.tail.tail
    have := length_utf8Bytes_le (0x10000 + (c - 0xD800) * 0x400 + (d - 0xDC00))
    simp only [List.map_cons, utf8Encode, List.length_append, List.length_cons]
    omega
  · intro c rest hc hd ih hs
    rw [scalarsOf_loneHigh c rest hc hd]
    have := ih hs.tail
    have := length_utf8Bytes_bmp 0xFFFD (by omega)
    simp only [List.map_cons, utf8Encode, List.length_append, List.length_cons]
    omega
  · intro c rest hc hl ih hs
    rw [scalarsOf_loneLow c rest hc hl]
    have := ih hs.tail
    have := length_utf8Bytes_bmp 0xFFFD (by omega)
    simp only [List.map_cons, utf8Encode, List.length_append, List.length_cons]
    omega
  · intro c rest hc hl ih hs
    rw [scalarsOf_plain c rest hc hl]
    have := ih hs.tail
    have := length_utf8Bytes_bmp c (hs c (List.mem_cons_self _ _))
    simp only [List.map_cons, utf8Encode, List.length_append, List.length_cons]
    omega

theorem wellFormed_isString : ∀ s : List Nat, wellFormed s = true → IsString s := by
  apply string_induction
  · intro _ x hx
    simp at hx
  · intro c d rest hc hd ih hw x hx
    rw [wellFormed_pair c d rest hc hd] at hw
    simp only [List.mem_cons] at hx
    simp only [isHighSurrogate, isLowSurrogate, decide_eq_true_eq] at hc hd
    rcases hx with rfl | rfl | hx
    · omega
    · omega
    · exact ih hw x hx
  · intro c rest hc hd _ hw
    rw [wellFormed_loneHigh c rest hc hd] at hw
    cases hw
  · intro c rest hc hl _ hw
    rw [wellFormed_loneLow c rest hc hl] at hw
    cases hw
  · intro c rest hc hl ih hw x hx
    rw [wellFormed_plain c rest hc hl] at hw
    simp only [Bool.and_eq_true, decide_eq_true_eq] at hw
    simp only [List.mem_cons] at hx
    rcases hx with rfl | hx
    · exact hw.1
    · exact ih hw.2 x hx

theorem stringOfScalars_scalarsOf : ∀ s : List Nat, wellFormed s = true →
    stringOfScalars ((scalarsOf s).map Prod.fst) = s := by
  apply string_induction
  · intro _
    rfl
  · intro c d rest hc hd ih hw
    rw [wellFormed_pair c d rest hc hd] at hw
    rw [scalarsOf_pair c d rest hc hd]
    simp only [List.map_cons, stringOfScalars, ih hw, unitsOfScalar]
    simp only [isHighSurrogate, isLowSurrogate, decide_eq_true_eq] at hc hd
    rw [if_neg (by omega)]
    simp only [List.cons_append, List.nil_append, List.cons.injEq, and_true]
    constructor <;> omega
  · intro c rest hc hd _ hw
    rw [wellFormed_loneHigh c rest hc hd] at hw
    cases hw
  · intro c rest hc hl _ hw
    rw [wellFormed_loneLow c rest hc hl] at hw
    cases hw
  · intro c rest hc hl ih hw
    rw [wellFormed_plain c rest hc hl] at hw
    simp only [Bool.and_eq_true, decide_eq_true_eq] at hw
    rw [scalarsOf_plain c rest hc hl]
    simp only [List.map_cons, stringOfScalars, ih hw.2, unitsOfScalar, if_pos hw.1]
    rfl

theorem textDecode_textEncode (s : List Nat) (hw : wellFormed s = true) :
    textDecode (textEncode s) = Except.ok s := by
  unfold textDecode textEncode
  rw [utf8Decode_utf8Encode _ (scalarsOf_isScalar s (wellFormed_isString s hw))]
  simp only [stringOfScalars_scalarsOf s hw]

theorem scalarsOf_ascii_append (pre rest : List Nat) (hpre : ∀ c ∈ pre, c ≤ 0x7F) :
    scalarsOf (pre ++ rest) = pre.map (fun c => (c, 1)) ++ scalarsOf rest := by
  induction pre with
  | nil => rfl
  | cons c pre ih =>
    have hc := hpre c (List.mem_cons_self _ _)
    rw [List.cons_append, scalarsOf_plain c _ (by simp [isHighSurrogate]; omega)
      (by simp [isLowSurrogate]; omega), ih (fun x hx => hpre x (List.mem_cons_of_mem _ hx))]
    rfl

theorem utf8Encode_ascii_append (pre : List Nat) (l : List (Nat × Nat))
    (hpre : ∀ c ∈ pre, c ≤ 0x7F) :
    utf8Encode ((pre.map (fun c => (c, 1)) ++ l).map Prod.fst) =
      pre ++ utf8Encode (l.map Prod.fst) := by
  induction pre with
  | nil => rfl
  | cons c pre ih =>
    have hc := hpre c (List.mem_cons_self _ _)
    have e : utf8Bytes c = [c] := by
      unfold utf8Bytes
      rw [if_pos (by omega)]
    have e2 : utf8Encode (((c :: pre).map (fun c => (c, 1)) ++ l).map Prod.fst) =
        utf8Bytes c ++ utf8Encode ((pre.map (fun c => (c, 1)) ++ l).map Prod.fst) := rfl
    rw [e2, e, ih (fun x hx => hpre x (List.mem_cons_of_mem _ hx))]
    rfl

theorem textEncode_ascii_append (pre rest : List Nat) (hpre : ∀ c ∈ pre, c ≤ 0x7F) :
    textEncode (pre ++ rest) = pre ++ textEncode rest := by
  unfold textEncode
  rw [scalarsOf_ascii_append pre rest hpre, utf8Encode_ascii_append pre _ hpre]

theorem textEncode_ascii (s : List Nat) (hs : ∀ c ∈ s, c ≤ 0x7F) : textEncode s = s := by
  have := textEncode_ascii_append s [] hs
  simpa [textEncode, scalarsOf, utf8Encode] using this

theorem wellFormed_ascii (s : List Nat) (hs : ∀ c ∈ s, c ≤ 0x7F) : wellFormed s = true := by
  induction s with
  | nil => rfl
  | cons c s ih =>
    have hc := hs c (List.mem_cons_self _ _)
    rw [wellFormed_plain c s (by simp [isHighSurrogate]; omega)
      (by simp [isLowSurrogate]; omega), ih (fun x hx => hs x (List.mem_cons_of_mem _ hx))]
    simp
    omega

theorem encodeIntoLoop_fits (l : List (Nat × Nat)) (capacity : Nat)
    (h : (utf8Encode (l.map Prod.fst)).length ≤ capacity) :
    encodeIntoLoop l capacity = ((l.map Prod.snd).sum, utf8Encode (l.map Prod.fst)) := by
  induction l generalizing capacity with
  | nil => rfl
  | cons p l ih =>
    obtain ⟨cp, units⟩ := p
    simp only [List.map_cons, utf8Encode, List.length_append] at h
    simp only [encodeIntoLoop, if_pos (show (utf8Bytes cp).length ≤ capacity by omega),
      List.map_cons, utf8Encode, List.sum_cons]
    rw [ih (capacity - (utf8Bytes cp).length) (by omega)]

theorem encodeIntoLoop_scalarsOf (t : List Nat) (capacity : Nat) (ht : IsString t)
    (h : 3 * t.length ≤ capacity) :
    encodeIntoLoop (scalarsOf t) capacity = (t.length, textEncode t) := by
  have hlen := length_textEncode_le t ht
  rw [encodeIntoLoop_fits _ _ (by unfold textEncode at hlen; omega), scalarsOf_units]
  rfl

/-! ## The two paths of `passStringToWasm0` -/

theorem toUint32_lt (x : Int) : toUint32 x < 4294967296 := by
  unfold toUint32
  omega

theorem toUint32_natCast_toUint32 (x : Int) : toUint32 ((toUint32 x : Nat) : Int) = toUint32 x := by
  unfold toUint32
  omega

theorem subarray_of_le (mem : List Nat) (b n : Nat) (h : b + n ≤ mem.length) :
    subarray mem b (b + n) = { start := b, length := n } := by
  unfold subarray
  rw [min_eq_left (by omega), min_eq_left (by omega)]
  simp

theorem asciiLoop_fst (ptr : Nat) (pre rest : List Nat) (off : Nat) (mem : List Nat)
    (hpre : ∀ c ∈ pre, c ≤ 0x7F) (hrest : ∀ c, rest.head? = some c → 0x7F < c) :
    (asciiLoop ptr (pre ++ rest) off mem).1 = off + pre.length := by
  induction pre generalizing off mem with
  | nil =>
    cases rest with
    | nil => simp [asciiLoop]
    | cons c rest =>
      have hc : 0x7F < c := hrest c rfl
      simp [asciiLoop, hc]
  | cons c pre ih =>
    have hc : c ≤ 0x7F := hpre c (List.mem_cons_self _ _)
    have hstep : asciiLoop ptr (c :: pre ++ rest) off mem =
        asciiLoop ptr (pre ++ rest) (off + 1) (mem.set (ptr + off) (c % 256)) := by
      simp only [List.cons_append, asciiLoop, if_neg (show ¬ c > 0x7F by omega)]
      rfl
    rw [hstep, ih (off + 1) _ (fun x hx => hpre x (List.mem_cons_of_mem _ hx)),
      List.length_cons]
    omega

theorem encodeString_fits (hasEncodeInto : Bool) (t : List Nat) (start n : Nat)
    (mem : List Nat) (ht : IsString t) (hn : 3 * t.length ≤ n) :
    encodeString hasEncodeInto t { start := start, length := n } mem =
      Except.ok (writeBytes mem start (textEncode t),
        { read := t.length, written := (textEncode t).length }) := by
  have hlen := length_textEncode_le t ht
  cases hasEncodeInto with
  | true =>
    simp only [encodeString, if_true, encodeIntoLoop_scalarsOf t n ht hn]
  | false =>
    simp only [encodeString, View.setBytes, if_pos (show (textEncode t).length ≤ n by omega)]
    rfl

theorem drop_ascii_prefix (pre : List Nat) (c : Nat) (post : List Nat) :
    (if pre.length ≠ 0 then (pre ++ c :: post).drop pre.length else pre ++ c :: post)
      = c :: post := by
  split
  · simp
  · rename_i h
    have : pre = [] := List.length_eq_zero.mp (by omega)
    subst this
    rfl

theorem passStringToWasm0_ascii {σ : Type} (hasEncodeInto : Bool) (w : Wasm σ)
    (s : List Nat) (malloc : Malloc σ) (realloc : Realloc σ) (hs : ∀ c ∈ s, c ≤ 0x7F) :
    passStringToWasm0 hasEncodeInto w s malloc (some realloc) =
      Except.ok { wasm := { inst := (malloc w s.length 1).1.inst,
                            memory := (asciiLoop (toUint32 (malloc w s.length 1).2) s 0
                              (malloc w s.length 1).1.memory).2 },
                  ptr := toUint32 (malloc w s.length 1).2,
                  WASM_VECTOR_LEN := s.length,
                  calls := [⟨AllocCall.malloc s.length 1, w.memory⟩] } := by
  have h := fun ptr mem => asciiLoop_fst ptr s [] 0 mem hs (by simp)
  simp only [List.append_nil, Nat.zero_add] at h
  simp only [passStringToWasm0, h, ne_eq, not_true_eq_false, if_false]

theorem passStringToWasm0_slow {σ : Type} (hasEncodeInto : Bool) (w : Wasm σ)
    (pre : List Nat) (c : Nat) (post : List Nat) (malloc : Malloc σ) (realloc : Realloc σ)
    (hpre : ∀ x ∈ pre, x ≤ 0x7F) (hc : 0x7F < c) (hs : IsString (pre ++ c :: post))
    (hr : ReallocPreserves realloc) :
    let n := (pre ++ c :: post).length
    let k := pre.length
    let m := malloc w n 1
    let ptr := toUint32 m.2
    let mem1 := (asciiLoop ptr (pre ++ c :: post) 0 m.1.memory).2
    let len1 := k + (c :: post).length * 3
    let r1 := realloc { inst := m.1.inst, memory := mem1 } ptr n len1 1
    let ptr1 := toUint32 r1.2
    let enc := textEncode (c :: post)
    let mem2 := writeBytes r1.1.memory (ptr1 + k) enc
    let r2 := realloc { inst := r1.1.inst, memory := mem2 } ptr1 len1 (k + enc.length) 1
    passStringToWasm0 hasEncodeInto w (pre ++ c :: post) malloc (some realloc) =
      Except.ok { wasm := r2.1, ptr := toUint32 r2.2, WASM_VECTOR_LEN := k + enc.length,
                  calls := [⟨AllocCall.malloc n 1, w.memory⟩,
                            ⟨AllocCall.realloc ptr n len1 1, mem1⟩,
                            ⟨AllocCall.realloc ptr1 len1 (k + enc.length) 1, mem2⟩] } := by
  intro n k m ptr mem1 len1 r1 ptr1 enc mem2 r2
  have h1 := fun ptr mem => asciiLoop_fst ptr pre (c :: post) 0 mem hpre
    (by intro x hx; simp only [List.head?_cons, Option.some.injEq] at hx; omega)
  simp only [Nat.zero_add] at h1
  have hne : ¬ (pre.length = (pre ++ c :: post).length) := by
    simp
  have hview : ∀ (w1 : Wasm σ) (p old : Nat),
      subarray (realloc w1 p old (pre.length + (c :: post).length * 3) 1).1.memory
        (toUint32 (realloc w1 p old (pre.length + (c :: post).length * 3) 1).2 + pre.length)
        (toUint32 (realloc w1 p old (pre.length + (c :: post).length * 3) 1).2
          + (pre.length + (c :: post).length * 3))
      = { start := toUint32 (realloc w1 p old (pre.length + (c :: post).length * 3) 1).2
            + pre.length,
          length := (c :: post).length * 3 } := by
    intro w1 p old
    have hb := (hr w1 p old (pre.length + (c :: post).length * 3) 1).1
    rw [← Nat.add_assoc]
    exact subarray_of_le _ _ _ (by omega)
  have henc := fun start mem => encodeString_fits hasEncodeInto (c :: post) start
    ((c :: post).length * 3) mem (fun x hx => hs x (by simp at hx ⊢; tauto)) (by omega)
  simp only [passStringToWasm0, h1, ne_eq, hne, not_false_eq_true, if_true,
    drop_ascii_prefix, hview, henc]

theorem ascii_split (s : List Nat) :
    (∀ c ∈ s, c ≤ 0x7F) ∨
      ∃ pre c post, s = pre ++ c :: post ∧ (∀ x ∈ pre, x ≤ 0x7F) ∧ 0x7F < c := by
  induction s with
  | nil => left; simp
  | cons a s ih =>
    by_cases ha : a ≤ 0x7F
    · rcases ih with h | ⟨pre, c, post, h1, h2, h3⟩
      · left
        intro x hx
        simp only [List.mem_cons] at hx
        rcases hx with rfl | hx
        · exact ha
        · exact h x hx
      · right
        refine ⟨a :: pre, c, post, by rw [h1]; rfl, ?_, h3⟩
        intro x hx
        simp only [List.mem_cons] at hx
        rcases hx with rfl | hx
        · exact ha
        · exact h2 x hx
    · right
      exact ⟨[], a, s, rfl, by simp, by omega⟩

theorem read_subarray_of_le (mem : List Nat) (p n : Nat) (h : p + n ≤ mem.length) :
    (subarray mem p (p + n)).read mem = slice mem p n := by
  rw [subarray_of_le mem p n h]
  rfl

/-- The memory after the grow, encode and shrink steps of the slow path. -/
theorem slow_path_memory {σ : Type} (realloc : Realloc σ) (hr : ReallocPreserves realloc)
    (inst1 : σ) (mem1 : List Nat) (ptr n len1 : Nat) (pre enc : List Nat)
    (hpre : slice mem1 ptr pre.length = pre) (hb : ptr + n ≤ mem1.length)
    (hk : pre.length ≤ n) (hn : n ≤ len1) (he : pre.length + enc.length ≤ len1) :
    let r1 := realloc { inst := inst1, memory := mem1 } ptr n len1 1
    let mem2 := writeBytes r1.1.memory (toUint32 r1.2 + pre.length) enc
    let r2 := realloc { inst := r1.1.inst, memory := mem2 } (toUint32 r1.2) len1
      (pre.length + enc.length) 1
    slice mem2 (toUint32 r1.2 + pre.length) enc.length = enc ∧
      toUint32 r2.2 + (pre.length + enc.length) ≤ r2.1.memory.length ∧
      slice r2.1.memory (toUint32 r2.2) (pre.length + enc.length) = pre ++ enc := by
  dsimp only
  obtain ⟨b1, b2⟩ := hr { inst := inst1, memory := mem1 } ptr n len1 1
  have b3 := slice_prefix pre.length (by rw [min_eq_left hn]; exact hk) (b2 hb)
  replace b3 := b3.trans hpre
  clear b2
  generalize realloc { inst := inst1, memory := mem1 } ptr n len1 1 = r1 at b1 b3 ⊢
  have hw : (writeBytes r1.1.memory (toUint32 r1.2 + pre.length) enc).length =
      r1.1.memory.length := length_writeBytes _ _ _ (by omega)
  have hsame : slice (writeBytes r1.1.memory (toUint32 r1.2 + pre.length) enc)
      (toUint32 r1.2 + pre.length) enc.length = enc :=
    slice_writeBytes_same _ _ _ (by omega)
  have hbefore : slice (writeBytes r1.1.memory (toUint32 r1.2 + pre.length) enc)
      (toUint32 r1.2) pre.length = pre := by
    rw [slice_writeBytes_before _ _ _ _ _ (by omega) (by omega)]
    exact b3
  obtain ⟨c1, c2⟩ := hr
    { inst := r1.1.inst, memory := writeBytes r1.1.memory (toUint32 r1.2 + pre.length) enc }
    (toUint32 r1.2) len1 (pre.length + enc.length) 1
  have c3 := c2 (by show _ ≤ (writeBytes _ _ _).length; rw [hw]; exact b1)
  rw [min_eq_right he] at c3
  clear c2
  generalize realloc
    { inst := r1.1.inst, memory := writeBytes r1.1.memory (toUint32 r1.2 + pre.length) enc }
    (toUint32 r1.2) len1 (pre.length + enc.length) 1 = r2 at c1 c3 ⊢
  refine ⟨hsame, c1, ?_⟩
  rw [c3]
  show slice (writeBytes _ _ _) _ _ = _
  rw [slice_add, hbefore, hsame]

/-- What the path with `realloc` leaves in memory, for a well-behaved allocator. -/
theorem passStringToWasm0_some_spec {σ : Type} (hasEncodeInto : Bool) (w : Wasm σ)
    (s : List Nat) (malloc : Malloc σ) (realloc : Realloc σ) (hs : IsString s)
    (hm : MallocInBounds malloc) (hr : ReallocPreserves realloc) :
    ∃ r, passStringToWasm0 hasEncodeInto w s malloc (some realloc) = Except.ok r ∧
      r.WASM_VECTOR_LEN = (textEncode s).length ∧
      toUint32 (r.ptr : Int) = r.ptr ∧
      r.ptr + r.WASM_VECTOR_LEN ≤ r.wasm.memory.length ∧
      slice r.wasm.memory r.ptr r.WASM_VECTOR_LEN = textEncode s := by
  rcases ascii_split s with hascii | ⟨pre, c, post, rfl, hpre, hc⟩
  · refine ⟨_, passStringToWasm0_ascii hasEncodeInto w s malloc realloc hascii, ?_⟩
    have hb := hm w s.length 1
    obtain ⟨_, h2, h3, _⟩ := asciiLoop_spec (toUint32 (malloc w s.length 1).2) s [] 0
      (malloc w s.length 1).1.memory hascii (by simp) (by simpa using hb)
    simp only [List.append_nil, Nat.add_zero] at h2 h3
    refine ⟨by rw [textEncode_ascii s hascii], toUint32_natCast_toUint32 _, ?_, ?_⟩
    · show _ ≤ (asciiLoop _ _ _ _).2.length
      rw [h2]
      exact hb
    · rw [textEncode_ascii s hascii]
      exact h3
  · have heq := passStringToWasm0_slow hasEncodeInto w pre c post malloc realloc hpre hc hs hr
    dsimp only at heq
    refine ⟨_, heq, ?_⟩
    clear heq
    have hlen : (textEncode (c :: post)).length ≤ 3 * (c :: post).length :=
      length_textEncode_le _ (fun x hx => hs x (by simp at hx ⊢; tauto))
    have hn : (pre ++ c :: post).length = pre.length + (c :: post).length := by simp
    have hb0 := hm w (pre ++ c :: post).length 1
    obtain ⟨_, a2, a3, _⟩ := asciiLoop_spec (toUint32 (malloc w (pre ++ c :: post).length 1).2)
      pre (c :: post) 0 (malloc w (pre ++ c :: post).length 1).1.memory hpre
      (by intro x hx; simp only [List.head?_cons, Option.some.injEq] at hx; omega)
      (by omega)
    simp only [Nat.add_zero] at a3
    obtain ⟨_, d2, d3⟩ := slow_path_memory realloc hr
      (malloc w (pre ++ c :: post).length 1).1.inst _ _ (pre ++ c :: post).length
      (pre.length + (c :: post).length * 3) pre (textEncode (c :: post)) a3
      (by rw [a2]; exact hb0) (by rw [hn]; omega) (by rw [hn]; omega) (by omega)
    refine ⟨?_, toUint32_natCast_toUint32 _, d2, ?_⟩
    · show pre.length + _ = _
      rw [textEncode_ascii_append pre _ hpre, List.length_append]
    · rw [textEncode_ascii_append pre _ hpre]
      exact d3

/-- What the path without `realloc` leaves in memory, for a well-behaved allocator. -/
theorem passStringToWasm0_none_spec {σ : Type} (hasEncodeInto : Bool) (w : Wasm σ)
    (s : List Nat) (malloc : Malloc σ) (hm : MallocInBounds malloc) :
    ∃ r, passStringToWasm0 hasEncodeInto w s malloc none = Except.ok r ∧
      r.WASM_VECTOR_LEN = (textEncode s).length ∧
      toUint32 (r.ptr : Int) = r.ptr ∧
      r.ptr + r.WASM_VECTOR_LEN ≤ r.wasm.memory.length ∧
      slice r.wasm.memory r.ptr r.WASM_VECTOR_LEN = textEncode s ∧
      r.calls.map CallRecord.call = [AllocCall.malloc (textEncode s).length 1] := by
  have hb := hm w (textEncode s).length 1
  have hset : (subarray (malloc w (textEncode s).length 1).1.memory
      (toUint32 (malloc w (textEncode s).length 1).2)
      (toUint32 (malloc w (textEncode s).length 1).2 + (textEncode s).length)).setBytes
        (malloc w (textEncode s).length 1).1.memory (textEncode s) =
      Except.ok (writeBytes (malloc w (textEncode s).length 1).1.memory
        (toUint32 (malloc w (textEncode s).length 1).2) (textEncode s)) := by
    rw [subarray_of_le _ _ _ hb]
    simp [View.setBytes]
  have heq : passStringToWasm0 hasEncodeInto w s malloc none =
      Except.ok { wasm := { inst := (malloc w (textEncode s).length 1).1.inst,
                            memory := writeBytes (malloc w (textEncode s).length 1).1.memory
                              (toUint32 (malloc w (textEncode s).length 1).2) (textEncode s) },
                  ptr := toUint32 (malloc w (textEncode s).length 1).2,
                  WASM_VECTOR_LEN := (textEncode s).length,
                  calls := [⟨AllocCall.malloc (textEncode s).length 1, w.memory⟩] } := by
    simp only [passStringToWasm0, hset]
  refine ⟨_, heq, rfl, toUint32_natCast_toUint32 _, ?_, ?_, rfl⟩
  · show _ ≤ (writeBytes _ _ _).length
    rw [length_writeBytes _ _ _ hb]
    exact hb
  · exact slice_writeBytes_same _ _ _ hb

theorem getStringFromWasm0_of_slice {σ : Type} (w : Wasm σ) (ptr len : Nat) (s : List Nat)
    (hp : toUint32 (ptr : Int) = ptr) (hb : ptr + len ≤ w.memory.length)
    (hsl : slice w.memory ptr len = textEncode s) (hw : wellFormed s = true) :
    getStringFromWasm0 w ptr len = Except.ok s := by
  unfold getStringFromWasm0
  rw [hp, read_subarray_of_le _ _ _ hb, hsl, textDecode_textEncode s hw]

theorem arenaMalloc_inBounds : MallocInBounds arenaMalloc := by
  intro w size align
  simp [arenaMalloc, toUint32]

theorem arenaRealloc_preserves : ReallocPreserves arenaRealloc := by
  intro w ptr oldSize newSize align
  constructor
  · simp [arenaRealloc, toUint32]
  · intro h
    have hl : (slice w.memory ptr (min oldSize newSize)).length = min oldSize newSize :=
      length_slice _ _ _ (by omega)
    show slice (slice w.memory ptr (min oldSize newSize) ++ List.replicate newSize 0)
      (toUint32 0) (min oldSize newSize) = _
    have h0 : toUint32 0 = 0 := rfl
    rw [h0]
    unfold slice at hl ⊢
    rw [List.drop_zero, List.take_append_of_le_length (by omega), List.take_of_length_le (by omega)]

/-! ## Claims about string marshalling -/

/-- C4: for a string of code units `<= 0x7F` and an allocator that returns regions inside
memory, `passStringToWasm0` with `realloc` supplied returns after exactly one allocator
call, `malloc(s.length, 1)`, and no `realloc`; it sets `WASM_VECTOR_LEN = s.length`, stores
code unit `i` at `ptr + i`, and `getStringFromWasm0(ptr, WASM_VECTOR_LEN)` returns `s`. -/
theorem C4_ascii_fast_path {σ : Type} (hasEncodeInto : Bool) (w : Wasm σ) (s : List Nat)
    (malloc : Malloc σ) (realloc : Realloc σ) (hs : ∀ c ∈ s, c ≤ 0x7F)
    (hm : MallocInBounds malloc) :
    ∃ r, passStringToWasm0 hasEncodeInto w s malloc (some realloc) = Except.ok r ∧
      r.calls.map CallRecord.call = [AllocCall.malloc s.length 1] ∧
      r.WASM_VECTOR_LEN = s.length ∧
      (∀ i, i < s.length → r.wasm.memory[r.ptr + i]? = s[i]?) ∧
      getStringFromWasm0 r.wasm r.ptr r.WASM_VECTOR_LEN = Except.ok s := by
  refine ⟨_, passStringToWasm0_ascii hasEncodeInto w s malloc realloc hs, rfl, rfl, ?_, ?_⟩
  all_goals
    have hb := hm w s.length 1
    obtain ⟨_, h2, h3, _⟩ := asciiLoop_spec (toUint32 (malloc w s.length 1).2) s [] 0
      (malloc w s.length 1).1.memory hs (by simp) (by simpa using hb)
    simp only [List.append_nil, Nat.add_zero] at h2 h3
  · intro i hi
    have := getElem?_slice (asciiLoop (toUint32 (malloc w s.length 1).2) s 0
      (malloc w s.length 1).1.memory).2 (toUint32 (malloc w s.length 1).2) s.length i
    rw [h3, if_pos hi] at this
    exact this.symm
  · refine getStringFromWasm0_of_slice _ _ _ s (toUint32_natCast_toUint32 _) ?_ ?_
      (wellFormed_ascii s hs)
    · show _ ≤ (asciiLoop _ _ _ _).2.length
      rw [h2]
      exact hb
    · rw [textEncode_ascii s hs]
      exact h3

/-- Witness of C4 on the string "Hi" with the sample arena allocator. -/
theorem C4_ascii_fast_path_witness :
    (∀ c ∈ [0x48, 0x69], c ≤ 0x7F) ∧ MallocInBounds arenaMalloc ∧
      ∃ r, passStringToWasm0 true emptyWasm [0x48, 0x69] arenaMalloc (some arenaRealloc)
          = Except.ok r ∧
        r.calls.map CallRecord.call = [AllocCall.malloc 2 1] ∧
        r.WASM_VECTOR_LEN = 2 ∧
        (∀ i, i < 2 → r.wasm.memory[r.ptr + i]? = [0x48, 0x69][i]?) ∧
        getStringFromWasm0 r.wasm r.ptr r.WASM_VECTOR_LEN = Except.ok [0x48, 0x69] :=
  ⟨by decide, arenaMalloc_inBounds,
    C4_ascii_fast_path true emptyWasm [0x48, 0x69] arenaMalloc arenaRealloc (by decide)
      arenaMalloc_inBounds⟩

/-- C5 (as stated, refuted): the one-unit string made of the unpaired surrogate 0xD800
contains a code unit `>= 0x80`, the sample allocator's `realloc` preserves the retained
prefix, and yet `getStringFromWasm0(ptr, WASM_VECTOR_LEN)` returns the string U+FFFD, which
is not the original string. -/
theorem C5_lone_surrogate_is_not_restored :
    ReallocPreserves arenaRealloc ∧ MallocInBounds arenaMalloc ∧
      ∃ r, passStringToWasm0 true emptyWasm [0xD800] arenaMalloc (some arenaRealloc)
          = Except.ok r ∧
        getStringFromWasm0 r.wasm r.ptr r.WASM_VECTOR_LEN = Except.ok [0xFFFD] ∧
        getStringFromWasm0 r.wasm r.ptr r.WASM_VECTOR_LEN ≠ Except.ok [0xD800] := by
  have key : ∀ r : PassResult Unit,
      getStringFromWasm0 r.wasm r.ptr r.WASM_VECTOR_LEN = Except.ok [0xFFFD] →
      getStringFromWasm0 r.wasm r.ptr r.WASM_VECTOR_LEN ≠ Except.ok [0xD800] := by
    intro r h1 h2
    rw [h1] at h2
    injection h2 with h2
    revert h2
    decide
  exact ⟨arenaRealloc_preserves, arenaMalloc_inBounds, _, rfl, rfl, key _ rfl⟩

/-- C5 (amended): for every well-formed string (no unpaired surrogate) that contains a
code unit `>= 0x80`, with an allocator that returns regions inside memory and whose
`realloc` preserves the retained prefix, `passStringToWasm0` returns and
`getStringFromWasm0(ptr, WASM_VECTOR_LEN)` returns the original string. -/
theorem C5_round_trip_of_well_formed_strings {σ : Type} (hasEncodeInto : Bool) (w : Wasm σ)
    (s : List Nat) (malloc : Malloc σ) (realloc : Realloc σ)
    (hw : wellFormed s = true) (_hne : ∃ c ∈ s, 0x80 ≤ c)
    (hm : MallocInBounds malloc) (hr : ReallocPreserves realloc) :
    ∃ r, passStringToWasm0 hasEncodeInto w s malloc (some realloc) = Except.ok r ∧
      getStringFromWasm0 r.wasm r.ptr r.WASM_VECTOR_LEN = Except.ok s := by
  obtain ⟨r, h1, _, h3, h4, h5⟩ := passStringToWasm0_some_spec hasEncodeInto w s malloc
    realloc (wellFormed_isString s hw) hm hr
  exact ⟨r, h1, getStringFromWasm0_of_slice _ _ _ s h3 h4 h5 hw⟩

/-- Witness of C5 (amended) on the string "é😀" (one BMP unit and one surrogate pair). -/
theorem C5_round_trip_of_well_formed_strings_witness :
    wellFormed [0xE9, 0xD83D, 0xDE00] = true ∧ (∃ c ∈ [0xE9, 0xD83D, 0xDE00], 0x80 ≤ c) ∧
      MallocInBounds arenaMalloc ∧ ReallocPreserves arenaRealloc ∧
      ∃ r, passStringToWasm0 true emptyWasm [0xE9, 0xD83D, 0xDE00] arenaMalloc
          (some arenaRealloc) = Except.ok r ∧
        getStringFromWasm0 r.wasm r.ptr r.WASM_VECTOR_LEN = Except.ok [0xE9, 0xD83D, 0xDE00] :=
  ⟨by decide, ⟨0xE9, by decide, by decide⟩, arenaMalloc_inBounds, arenaRealloc_preserves,
    C5_round_trip_of_well_formed_strings true emptyWasm [0xE9, 0xD83D, 0xDE00] arenaMalloc
      arenaRealloc (by decide) ⟨0xE9, by decide, by decide⟩ arenaMalloc_inBounds
      arenaRealloc_preserves⟩

/-- C6 (as stated, refuted): for the one-unit string "é" the call with `realloc` supplied
makes two `realloc` calls, not one. -/
theorem C6_slow_path_reallocates_twice_example :
    (∃ c ∈ [0xE9], 0x80 ≤ c) ∧
      ∃ r, passStringToWasm0 true emptyWasm [0xE9] arenaMalloc (some arenaRealloc)
          = Except.ok r ∧
        (r.calls.filter (fun c => c.call.isRealloc)).length = 2 ∧
        (r.calls.filter (fun c => c.call.isRealloc)).length ≠ 1 :=
  ⟨⟨0xE9, by decide, by decide⟩, _, rfl, rfl, by decide⟩

/-- C6 (amended): for every string that contains a code unit `>= 0x80`, with a `realloc`
that returns regions inside memory, `passStringToWasm0` with `realloc` supplied returns
after exactly one `malloc` call and exactly two `realloc` calls (one that grows the
region and one that shrinks it). -/
theorem C6_slow_path_calls_realloc_twice {σ : Type} (hasEncodeInto : Bool) (w : Wasm σ)
    (s : List Nat) (malloc : Malloc σ) (realloc : Realloc σ) (hs : IsString s)
    (hne : ∃ c ∈ s, 0x80 ≤ c) (hr : ReallocPreserves realloc) :
    ∃ r, passStringToWasm0 hasEncodeInto w s malloc (some realloc) = Except.ok r ∧
      (r.calls.filter (fun c => c.call.isRealloc)).length = 2 ∧
      (r.calls.filter (fun c => c.call.isMalloc)).length = 1 := by
  rcases ascii_split s with hascii | ⟨pre, c, post, rfl, hpre, hc⟩
  · obtain ⟨c, hc, hc2⟩ := hne
    have := hascii c hc
    omega
  · have heq := passStringToWasm0_slow hasEncodeInto w pre c post malloc realloc hpre hc hs hr
    dsimp only at heq
    exact ⟨_, heq, rfl, rfl⟩

/-- Witness of C6 (amended) on the string "aé". -/
theorem C6_slow_path_calls_realloc_twice_witness :
    IsString [0x61, 0xE9] ∧ (∃ c ∈ [0x61, 0xE9], 0x80 ≤ c) ∧
      ReallocPreserves arenaRealloc ∧
      ∃ r, passStringToWasm0 false emptyWasm [0x61, 0xE9] arenaMalloc (some arenaRealloc)
          = Except.ok r ∧
        (r.calls.filter (fun c => c.call.isRealloc)).length = 2 ∧
        (r.calls.filter (fun c => c.call.isMalloc)).length = 1 :=
  ⟨by unfold IsString; decide, ⟨0xE9, by decide, by decide⟩, arenaRealloc_preserves,
    C6_slow_path_calls_realloc_twice false emptyWasm [0x61, 0xE9] arenaMalloc arenaRealloc
      (by unfold IsString; decide) ⟨0xE9, by decide, by decide⟩ arenaRealloc_preserves⟩

/-- C7: for a string `s = pre ++ c :: post` of length `n` whose first code unit above 0x7F
is `c`, at offset `k = pre.length`, and a well-behaved allocator, `passStringToWasm0`
returns after exactly the calls `malloc(n, 1)`, `realloc(ptr, n, k + (n - k) * 3, 1)` and
`realloc(ptr1, k + (n - k) * 3, k + w, 1)`, where `w` is the number of UTF-8 bytes of
`s.slice(k)`; at the first `realloc` the bytes `ptr .. ptr + k - 1` hold the prefix, at the
second one the `w` bytes from `ptr1 + k` on hold the encoding of `s.slice(k)`; and
`WASM_VECTOR_LEN = k + w`. -/
theorem C7_slow_path_call_sequence {σ : Type} (hasEncodeInto : Bool) (w : Wasm σ)
    (pre : List Nat) (c : Nat) (post : List Nat) (malloc : Malloc σ) (realloc : Realloc σ)
    (hpre : ∀ x ∈ pre, x ≤ 0x7F) (hc : 0x7F < c) (hs : IsString (pre ++ c :: post))
    (hm : MallocInBounds malloc) (hr : ReallocPreserves realloc) :
    ∃ (r : PassResult σ) (ptr1 : Nat) (mem1 mem2 : List Nat),
      passStringToWasm0 hasEncodeInto w (pre ++ c :: post) malloc (some realloc)
        = Except.ok r ∧
      r.calls =
        [⟨AllocCall.malloc (pre ++ c :: post).length 1, w.memory⟩,
         ⟨AllocCall.realloc (toUint32 (malloc w (pre ++ c :: post).length 1).2)
            (pre ++ c :: post).length
            (pre.length + ((pre ++ c :: post).length - pre.length) * 3) 1, mem1⟩,
         ⟨AllocCall.realloc ptr1 (pre.length + ((pre ++ c :: post).length - pre.length) * 3)
            (pre.length + (textEncode ((pre ++ c :: post).drop pre.length)).length) 1, mem2⟩] ∧
      slice mem1 (toUint32 (malloc w (pre ++ c :: post).length 1).2) pre.length = pre ∧
      slice mem2 (ptr1 + pre.length) (textEncode ((pre ++ c :: post).drop pre.length)).length
        = textEncode ((pre ++ c :: post).drop pre.length) ∧
      r.WASM_VECTOR_LEN
        = pre.length + (textEncode ((pre ++ c :: post).drop pre.length)).length := by
  have heq := passStringToWasm0_slow hasEncodeInto w pre c post malloc realloc hpre hc hs hr
  dsimp only at heq
  have hdrop : (pre ++ c :: post).drop pre.length = c :: post := by simp
  have hsub : (pre ++ c :: post).length - pre.length = (c :: post).length := by simp
  have hlen : (textEncode (c :: post)).length ≤ 3 * (c :: post).length :=
    length_textEncode_le _ (fun x hx => hs x (by simp at hx ⊢; tauto))
  have hn : (pre ++ c :: post).length = pre.length + (c :: post).length := by simp
  have hb0 := hm w (pre ++ c :: post).length 1
  obtain ⟨_, a2, a3, _⟩ := asciiLoop_spec (toUint32 (malloc w (pre ++ c :: post).length 1).2)
    pre (c :: post) 0 (malloc w (pre ++ c :: post).length 1).1.memory hpre
    (by intro x hx; simp only [List.head?_cons, Option.some.injEq] at hx; omega)
    (by omega)
  simp only [Nat.add_zero] at a3
  obtain ⟨d1, _, _⟩ := slow_path_memory realloc hr
    (malloc w (pre ++ c :: post).length 1).1.inst _ _ (pre ++ c :: post).length
    (pre.length + (c :: post).length * 3) pre (textEncode (c :: post)) a3
    (by rw [a2]; exact hb0) (by rw [hn]; omega) (by rw [hn]; omega) (by omega)
  rw [hdrop, hsub]
  exact ⟨_, _, _, _, heq, rfl, a3, d1, rfl⟩

/-- Witness of C7 on the string "ab€" (prefix "ab", first non-ASCII unit at offset 2). -/
theorem C7_slow_path_call_sequence_witness :
    (∀ x ∈ [0x61, 0x62], x ≤ 0x7F) ∧ 0x7F < 0x20AC ∧ IsString ([0x61, 0x62] ++ 0x20AC :: []) ∧
      MallocInBounds arenaMalloc ∧ ReallocPreserves arenaRealloc ∧
      ∃ r, passStringToWasm0 true emptyWasm ([0x61, 0x62] ++ 0x20AC :: []) arenaMalloc
          (some arenaRealloc) = Except.ok r ∧ r.WASM_VECTOR_LEN = 5 := by
  have hs : IsString ([0x61, 0x62] ++ 0x20AC :: []) := by unfold IsString; decide
  obtain ⟨r, _, _, _, h1, _, _, _, h5⟩ := C7_slow_path_call_sequence true emptyWasm
    [0x61, 0x62] 0x20AC [] arenaMalloc arenaRealloc (by decide) (by decide) hs
    arenaMalloc_inBounds arenaRealloc_preserves
  exact ⟨by decide, by decide, hs, arenaMalloc_inBounds, arenaRealloc_preserves, r, h1, h5⟩

/-- C8: the slow-path buffer is large enough.  The UTF-8 encoding of a sequence `t` of
UTF-16 code units has at most `3 * t.length` bytes; `encodeString`, in both of its
definitions, given a view of at least `3 * t.length` bytes reads all of `t` and writes
its complete encoding; and in `passStringToWasm0` the view handed to `encodeString` has
`(n - k) * 3` bytes and the final size `k + w` passed to the shrinking `realloc` is at most
`k + (n - k) * 3`. -/
theorem C8_slow_path_buffer_suffices :
    (∀ t : List Nat, IsString t → (textEncode t).length ≤ 3 * t.length) ∧
    (∀ (hasEncodeInto : Bool) (t : List Nat) (start n : Nat) (mem : List Nat),
      IsString t → 3 * t.length ≤ n →
      encodeString hasEncodeInto t { start := start, length := n } mem =
        Except.ok (writeBytes mem start (textEncode t),
          { read := t.length, written := (textEncode t).length })) ∧
    (∀ {σ : Type} (hasEncodeInto : Bool) (w : Wasm σ) (pre : List Nat) (c : Nat)
      (post : List Nat) (malloc : Malloc σ) (realloc : Realloc σ),
      (∀ x ∈ pre, x ≤ 0x7F) → 0x7F < c → IsString (pre ++ c :: post) →
      ReallocPreserves realloc →
      ∃ (r : PassResult σ) (ptr1 : Nat) (mem2 : List Nat),
        passStringToWasm0 hasEncodeInto w (pre ++ c :: post) malloc (some realloc)
          = Except.ok r ∧
        r.calls.getLast? = some ⟨AllocCall.realloc ptr1
          (pre.length + ((pre ++ c :: post).length - pre.length) * 3)
          r.WASM_VECTOR_LEN 1, mem2⟩ ∧
        (subarray mem2 (ptr1 + pre.length)
          (ptr1 + (pre.length + ((pre ++ c :: post).length - pre.length) * 3))).length
          = ((pre ++ c :: post).length - pre.length) * 3 ∧
        r.WASM_VECTOR_LEN
          = pre.length + (textEncode ((pre ++ c :: post).drop pre.length)).length ∧
        r.WASM_VECTOR_LEN ≤ pre.length + ((pre ++ c :: post).length - pre.length) * 3) := by
  refine ⟨length_textEncode_le, ?_, ?_⟩
  · intro hasEncodeInto t start n mem ht hn
    exact encodeString_fits hasEncodeInto t start n mem ht hn
  · intro σ hasEncodeInto w pre c post malloc realloc hpre hc hs hr
    have heq := passStringToWasm0_slow hasEncodeInto w pre c post malloc realloc hpre hc hs hr
    dsimp only at heq
    have hdrop : (pre ++ c :: post).drop pre.length = c :: post := by simp
    have hsub : (pre ++ c :: post).length - pre.length = (c :: post).length := by simp
    have hlen : (textEncode (c :: post)).length ≤ 3 * (c :: post).length :=
      length_textEncode_le _ (fun x hx => hs x (by simp at hx ⊢; tauto))
    rw [hdrop, hsub]
    refine ⟨_, _, _, heq, rfl, ?_, rfl, ?_⟩
    · obtain ⟨b1, _⟩ := hr
        { inst := (malloc w (pre ++ c :: post).length 1).1.inst,
          memory := (asciiLoop (toUint32 (malloc w (pre ++ c :: post).length 1).2)
            (pre ++ c :: post) 0 (malloc w (pre ++ c :: post).length 1).1.memory).2 }
        (toUint32 (malloc w (pre ++ c :: post).length 1).2) (pre ++ c :: post).length
        (pre.length + (c :: post).length * 3) 1
      generalize realloc _ _ _ _ _ = r1 at b1 ⊢
      have hw : (writeBytes r1.1.memory (toUint32 r1.2 + pre.length)
          (textEncode (c :: post))).length = r1.1.memory.length :=
        length_writeBytes _ _ _ (by omega)
      rw [← Nat.add_assoc, subarray_of_le _ _ _ (by rw [hw]; omega)]
    · show pre.length + _ ≤ _
      omega

/-- Witness of C8 on the string made of a surrogate pair followed by an unpaired
surrogate: 7 bytes for 3 code units, all written into a view of 9 bytes. -/
theorem C8_slow_path_buffer_suffices_witness :
    IsString [0xD83D, 0xDE00, 0xD800] ∧
      (textEncode [0xD83D, 0xDE00, 0xD800]).length ≤ 3 * 3 ∧
      encodeString true [0xD83D, 0xDE00, 0xD800] { start := 0, length := 9 }
          (List.replicate 9 0) =
        Except.ok (writeBytes (List.replicate 9 0) 0 (textEncode [0xD83D, 0xDE00, 0xD800]),
          { read := 3, written := (textEncode [0xD83D, 0xDE00, 0xD800]).length }) :=
  ⟨by unfold IsString; decide,
    C8_slow_path_buffer_suffices.1 [0xD83D, 0xDE00, 0xD800] (by unfold IsString; decide),
    C8_slow_path_buffer_suffices.2.1 true [0xD83D, 0xDE00, 0xD800] 0 9 (List.replicate 9 0)
      (by unfold IsString; decide) (by decide)⟩

/-- C18: the two encoding paths of `passStringToWasm0` agree.  For every string and a
well-behaved allocator, the call with `realloc` supplied and the call with `realloc`
undefined both return, with the same `WASM_VECTOR_LEN` and the same bytes in
`[ptr, ptr + WASM_VECTOR_LEN)`, namely the UTF-8 encoding of the string; and cutting a
string after a prefix of code units `<= 0x7F` never splits a surrogate pair: the scalar
values (and the encoding) of the whole are those of the prefix followed by those of the
rest. -/
theorem C18_encoding_paths_agree {σ : Type} (hasEncodeInto : Bool) (w : Wasm σ)
    (s : List Nat) (malloc : Malloc σ) (realloc : Realloc σ) (hs : IsString s)
    (hm : MallocInBounds malloc) (hr : ReallocPreserves realloc) :
    (∃ r1 r2, passStringToWasm0 hasEncodeInto w s malloc (some realloc) = Except.ok r1 ∧
      passStringToWasm0 hasEncodeInto w s malloc none = Except.ok r2 ∧
      r1.WASM_VECTOR_LEN = r2.WASM_VECTOR_LEN ∧
      r1.WASM_VECTOR_LEN = (textEncode s).length ∧
      slice r1.wasm.memory r1.ptr r1.WASM_VECTOR_LEN = textEncode s ∧
      slice r2.wasm.memory r2.ptr r2.WASM_VECTOR_LEN = textEncode s) ∧
    (∀ pre rest : List Nat, (∀ c ∈ pre, c ≤ 0x7F) →
      scalarsOf (pre ++ rest) = pre.map (fun c => (c, 1)) ++ scalarsOf rest ∧
      textEncode (pre ++ rest) = pre ++ textEncode rest) := by
  obtain ⟨r1, a1, a2, _, _, a5⟩ :=
    passStringToWasm0_some_spec hasEncodeInto w s malloc realloc hs hm hr
  obtain ⟨r2, b1, b2, _, _, b5, _⟩ := passStringToWasm0_none_spec hasEncodeInto w s malloc hm
  refine ⟨⟨r1, r2, a1, b1, by rw [a2, b2], a2, a5, b5⟩, ?_⟩
  intro pre rest hpre
  exact ⟨scalarsOf_ascii_append pre rest hpre, textEncode_ascii_append pre rest hpre⟩

/-- Witness of C18 on the string "a😀" with the sample arena allocator. -/
theorem C18_encoding_paths_agree_witness :
    IsString [0x61, 0xD83D, 0xDE00] ∧ MallocInBounds arenaMalloc ∧
      ReallocPreserves arenaRealloc ∧
      ∃ r1 r2, passStringToWasm0 true emptyWasm [0x61, 0xD83D, 0xDE00] arenaMalloc
          (some arenaRealloc) = Except.ok r1 ∧
        passStringToWasm0 true emptyWasm [0x61, 0xD83D, 0xDE00] arenaMalloc none
          = Except.ok r2 ∧
        r1.WASM_VECTOR_LEN = r2.WASM_VECTOR_LEN ∧
        r1.WASM_VECTOR_LEN = (textEncode [0x61, 0xD83D, 0xDE00]).length ∧
        slice r1.wasm.memory r1.ptr r1.WASM_VECTOR_LEN = textEncode [0x61, 0xD83D, 0xDE00] ∧
        slice r2.wasm.memory r2.ptr r2.WASM_VECTOR_LEN = textEncode [0x61, 0xD83D, 0xDE00] :=
  ⟨by unfold IsString; decide, arenaMalloc_inBounds, arenaRealloc_preserves,
    (C18_encoding_paths_agree true emptyWasm [0x61, 0xD83D, 0xDE00] arenaMalloc arenaRealloc
      (by unfold IsString; decide) arenaMalloc_inBounds arenaRealloc_preserves).1⟩

/-! ## Claims about `handleError` and the cached views -/

/-- C12: `handleError` lets no host exception escape (its result is a returned value).
If `f` returns `v`, `handleError` returns `v`, stores no exception and leaves the table as
`f` left it.  If `f` throws `e`, leaving a table reached under the release discipline,
`handleError` allocates exactly one handle `h`, which was not live and now reads `e`,
passes `h` to `wasm.__wbindgen_exn_store` exactly once, and returns `undefined`. -/
theorem C12_handleError_stores_the_exception
    (f : HeapState → HeapState × Except JsValue JsValue) (s : HeapState) :
    (∀ s1 v, f s = (s1, Except.ok v) →
      handleError f s = some { heap := s1, ret := v, exnStore := [] }) ∧
    (∀ (ops : List HeapOp) (t : Tracked) (e : JsValue),
      Tracked.init.run ops = some t → f s = (t.st, Except.error e) →
      ∃ s2 h, addHeapObject t.st e = some (s2, h) ∧ t.isLive h = false ∧
        handleError f s = some { heap := s2, ret := JsValue.undefined, exnStore := [h] } ∧
        getObject s2 h = e) := by
  constructor
  · intro s1 v hf
    simp only [handleError, hf]
  · intro ops t e hrun hf
    obtain ⟨free, hinv⟩ := inv_reachable hrun
    obtain ⟨s2, h, hadd, hinv1, hnot⟩ := inv_add hinv e
    refine ⟨s2, h, hadd, ?_, by simp only [handleError, hf, hadd], ?_⟩
    · cases hl : t.isLive h with
      | false => rfl
      | true =>
        obtain ⟨w, hw⟩ := (isLive_iff t h).mp hl
        exact absurd hw (hnot w)
    · exact (hinv1.live_ok h e (List.mem_cons_self _ _)).2.2

/-- Witness of C12: a host function that throws the exception 5 on the table reached by
`sampleOps`. -/
theorem C12_handleError_stores_the_exception_witness :
    Tracked.init.run sampleOps = some sampleTracked ∧
      ∃ s2 h, addHeapObject sampleTracked.st (JsValue.other 5) = some (s2, h) ∧
        sampleTracked.isLive h = false ∧
        handleError (fun _ => (sampleTracked.st, Except.error (JsValue.other 5))) initialHeap
          = some { heap := s2, ret := JsValue.undefined, exnStore := [h] } ∧
        getObject s2 h = JsValue.other 5 :=
  ⟨sampleOps_run,
    (C12_handleError_stores_the_exception
      (fun _ => (sampleTracked.st, Except.error (JsValue.other 5))) initialHeap).2
      sampleOps sampleTracked (JsValue.other 5) sampleOps_run rfl⟩

/-- C14: each cached accessor returns the cached view unchanged when the cache is
non-null with a non-zero `byteLength`, and otherwise creates, caches and returns a view
over the current `wasm.memory.buffer`; hence the view an accessor returns is always over
the current buffer, in particular after a growth of the memory has detached the old
one. -/
theorem C14_accessors_return_current_views (m : MemoryState) (c : Caches) :
    (∀ v, c.cachedUint8Memory0 = some v → v.byteLength m ≠ 0 →
        getUint8Memory0 m c = (c, v)) ∧
    (∀ v, c.cachedInt32Memory0 = some v → v.byteLength m ≠ 0 →
        getInt32Memory0 m c = (c, v)) ∧
    (∀ v, c.cachedFloat32Memory0 = some v → v.byteLength m ≠ 0 →
        getFloat32Memory0 m c = (c, v)) ∧
    (∀ v, c.cachedFloat64Memory0 = some v → v.byteLength m ≠ 0 →
        getFloat64Memory0 m c = (c, v)) ∧
    ((c.cachedUint8Memory0 = none ∨ ∃ v, c.cachedUint8Memory0 = some v ∧ v.byteLength m = 0) →
        getUint8Memory0 m c = ({ c with cachedUint8Memory0 := some { buffer := m.buffer } },
          { buffer := m.buffer })) ∧
    ((c.cachedInt32Memory0 = none ∨ ∃ v, c.cachedInt32Memory0 = some v ∧ v.byteLength m = 0) →
        getInt32Memory0 m c = ({ c with cachedInt32Memory0 := some { buffer := m.buffer } },
          { buffer := m.buffer })) ∧
    ((c.cachedFloat32Memory0 = none ∨
        ∃ v, c.cachedFloat32Memory0 = some v ∧ v.byteLength m = 0) →
        getFloat32Memory0 m c = ({ c with cachedFloat32Memory0 := some { buffer := m.buffer } },
          { buffer := m.buffer })) ∧
    ((c.cachedFloat64Memory0 = none ∨
        ∃ v, c.cachedFloat64Memory0 = some v ∧ v.byteLength m = 0) →
        getFloat64Memory0 m c = ({ c with cachedFloat64Memory0 := some { buffer := m.buffer } },
          { buffer := m.buffer })) ∧
    (∀ delta : Nat,
      (getUint8Memory0 (m.grow delta) c).2.buffer = (m.grow delta).buffer ∧
      (getInt32Memory0 (m.grow delta) c).2.buffer = (m.grow delta).buffer ∧
      (getFloat32Memory0 (m.grow delta) c).2.buffer = (m.grow delta).buffer ∧
      (getFloat64Memory0 (m.grow delta) c).2.buffer = (m.grow delta).buffer ∧
      (getUint8Memory0 (m.grow delta) c).2.buffer ≠ m.buffer) := by
  have cur : ∀ (m1 : MemoryState) (v : TypedView), v.byteLength m1 ≠ 0 →
      v.buffer = m1.buffer := by
    intro m1 v hv
    unfold TypedView.byteLength at hv
    by_contra hne
    rw [if_neg hne] at hv
    exact hv rfl
  have g8 : ∀ m1 : MemoryState, (getUint8Memory0 m1 c).2.buffer = m1.buffer := by
    intro m1
    unfold getUint8Memory0
    split
    · split
      · rfl
      · rename_i v _ hv
        exact cur m1 v hv
    · rfl
  have g32 : ∀ m1 : MemoryState, (getInt32Memory0 m1 c).2.buffer = m1.buffer := by
    intro m1
    unfold getInt32Memory0
    split
    · split
      · rfl
      · rename_i v _ hv
        exact cur m1 v hv
    · rfl
  have f32 : ∀ m1 : MemoryState, (getFloat32Memory0 m1 c).2.buffer = m1.buffer := by
    intro m1
    unfold getFloat32Memory0
    split
    · split
      · rfl
      · rename_i v _ hv
        exact cur m1 v hv
    · rfl
  have f64 : ∀ m1 : MemoryState, (getFloat64Memory0 m1 c).2.buffer = m1.buffer := by
    intro m1
    unfold getFloat64Memory0
    split
    · split
      · rfl
      · rename_i v _ hv
        exact cur m1 v hv
    · rfl
  refine ⟨?_, ?_, ?_, ?_, ?_, ?_, ?_, ?_, ?_⟩
  · intro v hv hb
    simp [getUint8Memory0, hv, hb]
  · intro v hv hb
    simp [getInt32Memory0, hv, hb]
  · intro v hv hb
    simp [getFloat32Memory0, hv, hb]
  · intro v hv hb
    simp [getFloat64Memory0, hv, hb]
  · rintro (hn | ⟨v, hv, hb⟩)
    · simp [getUint8Memory0, hn]
    · simp [getUint8Memory0, hv, hb]
  · rintro (hn | ⟨v, hv, hb⟩)
    · simp [getInt32Memory0, hn]
    · simp [getInt32Memory0, hv, hb]
  · rintro (hn | ⟨v, hv, hb⟩)
    · simp [getFloat32Memory0, hn]
    · simp [getFloat32Memory0, hv, hb]
  · rintro (hn | ⟨v, hv, hb⟩)
    · simp [getFloat64Memory0, hn]
    · simp [getFloat64Memory0, hv, hb]
  · intro delta
    refine ⟨g8 _, g32 _, f32 _, f64 _, ?_⟩
    rw [g8]
    simp [MemoryState.grow]

/-- Witness of C14: a cached view of buffer 0 is returned unchanged while buffer 0 is
current, and is replaced by a view of buffer 1 after the memory has grown. -/
theorem C14_accessors_return_current_views_witness :
    getUint8Memory0 { buffer := 0, byteLength := 65536 }
        { Caches.empty with cachedUint8Memory0 := some { buffer := 0 } }
      = ({ Caches.empty with cachedUint8Memory0 := some { buffer := 0 } }, { buffer := 0 }) ∧
    (getUint8Memory0 (MemoryState.grow { buffer := 0, byteLength := 65536 } 1)
        { Caches.empty with cachedUint8Memory0 := some { buffer := 0 } }).2.buffer = 1 :=
  ⟨(C14_accessors_return_current_views { buffer := 0, byteLength := 65536 }
      { Caches.empty with cachedUint8Memory0 := some { buffer := 0 } }).1 { buffer := 0 } rfl
      (by decide),
    (C14_accessors_return_current_views { buffer := 0, byteLength := 65536 }
      { Caches.empty with cachedUint8Memory0 := some { buffer := 0 } }).2.2.2.2.2.2.2.2 1
      |>.1⟩

/-! ## Closure lifecycle -/

theorem getLast?_cons_of_ne_nil {α : Type} (x : α) (l : List α) (h : l ≠ []) :
    (x :: l).getLast? = l.getLast? := by
  cases l with
  | nil => exact absurd rfl h
  | cons y l => simp [List.getLast?_cons_cons]

/-- Once the count is zero, no invocation is in progress and `state` is not registered,
nothing more can happen (as long as no invocation starts at count zero). -/
theorem unregistered_terminal (s final : ClosureSys) (acts : List ClosureAct)
    (hc : s.state.cnt = 0) (hf : s.frames = []) (hreg : s.registered = false)
    (hdrop : (acts.filter ClosureAct.isDrop).length = 0)
    (hrun : s.run acts = some final) (hdisc : noInvokeAtZero s acts = true) :
    acts = [] ∧ final = s := by
  cases acts with
  | nil =>
    simp only [ClosureSys.run, Option.some.injEq] at hrun
    exact ⟨rfl, hrun.symm⟩
  | cons act acts =>
    cases act with
    | invoke => simp [noInvokeAtZero, ClosureAct.isInvoke, hc] at hdisc
    | finish o => simp [ClosureSys.run, ClosureSys.step, realFinally, hf] at hrun
    | drop => simp [ClosureAct.isDrop] at hdrop
    | finalize =>
      simp [ClosureSys.run, ClosureSys.step, ClosureSys.canFinalize, hreg] at hrun

/-- Once the count is zero and no invocation is in progress, the only thing that can
still happen (as long as no invocation starts at count zero) is one run of the
finalizer, when `state` is still registered. -/
theorem released_run (s final : ClosureSys) (acts : List ClosureAct)
    (hc : s.state.cnt = 0) (hf : s.frames = [])
    (hdrop : (acts.filter ClosureAct.isDrop).length = 0)
    (hrun : s.run acts = some final) (hdisc : noInvokeAtZero s acts = true) :
    cntZeroHits s acts = 0 ∧ final.frames = [] ∧
      (final.log = s.log ∨
        (s.registered = true ∧
          final.log = s.log ++ [ClosureEvent.callDtor s.state.dtor s.state.a s.state.b])) := by
  cases acts with
  | nil =>
    simp only [ClosureSys.run, Option.some.injEq] at hrun
    subst hrun
    exact ⟨rfl, hf, Or.inl rfl⟩
  | cons act acts =>
    cases act with
    | invoke => simp [noInvokeAtZero, ClosureAct.isInvoke, hc] at hdisc
    | finish o => simp [ClosureSys.run, ClosureSys.step, realFinally, hf] at hrun
    | drop => simp [ClosureAct.isDrop] at hdrop
    | finalize =>
      cases hcan : s.canFinalize with
      | false => simp [ClosureSys.run, ClosureSys.step, hcan] at hrun
      | true =>
        have hstep : s.step ClosureAct.finalize = some (finalizer s) := by
          simp [ClosureSys.step, hcan]
        have hreg : s.registered = true := by
          simp only [ClosureSys.canFinalize, Bool.and_eq_true] at hcan
          exact hcan.1.1.1
        simp only [ClosureSys.run, hstep] at hrun
        simp only [noInvokeAtZero, hstep, Bool.and_eq_true] at hdisc
        obtain ⟨hacts, hfinal⟩ := unregistered_terminal (finalizer s) final acts hc hf rfl
          (by simpa [ClosureAct.isDrop] using hdrop) hrun hdisc.2
        subst hacts
        subst hfinal
        refine ⟨?_, hf, Or.inr ⟨hreg, rfl⟩⟩
        simp [cntZeroHits, hstep, hc]

theorem pending_run (a0 b0 d0 : Int) (acts : List ClosureAct) (s final : ClosureSys)
    (hp : Pending a0 b0 d0 s) (hdrop : (acts.filter ClosureAct.isDrop).length = 0)
    (hrun : s.run acts = some final) (hdone : final.frames = [])
    (hdisc : noInvokeAtZero s acts = true) :
    cntZeroHits s acts = 1 ∧
      final.log.filter ClosureEvent.isDestroy =
        s.log.filter ClosureEvent.isDestroy ++ [ClosureEvent.callDtor d0 a0 b0] := by
  induction acts generalizing s with
  | nil =>
    simp only [ClosureSys.run, Option.some.injEq] at hrun
    subst hrun
    exact absurd hdone hp.nonempty
  | cons act acts ih =>
    cases act with
    | invoke =>
      cases hcol : s.collected with
      | true => simp [ClosureSys.run, ClosureSys.step, hcol] at hrun
      | false =>
        have hstep : s.step ClosureAct.invoke = some (realEnter s) := by
          simp [ClosureSys.step, hcol]
        have hp1 : Pending a0 b0 d0 (realEnter s) :=
          { cnt := by simp [realEnter, hp.cnt]
            nonempty := by simp [realEnter]
            b := hp.b
            dtor := hp.dtor
            bottom := by
              intro x hx
              simp only [realEnter] at hx
              rw [getLast?_cons_of_ne_nil _ _ hp.nonempty] at hx
              exact hp.bottom x hx }
        have hne : ¬ (realEnter s).state.cnt = 0 := by
          have := hp1.cnt
          have : (realEnter s).frames.length ≠ 0 := by simp [realEnter]
          omega
        simp only [ClosureSys.run, hstep] at hrun
        simp only [noInvokeAtZero, hstep, Bool.and_eq_true] at hdisc
        obtain ⟨h1, h2⟩ := ih (realEnter s) hp1 (by simpa [ClosureAct.isDrop] using hdrop)
          hrun hdisc.2
        refine ⟨by simp only [cntZeroHits, hstep, hne, and_false, if_false]; omega, ?_⟩
        rw [h2]
        simp [realEnter, ClosureEvent.isDestroy]
    | finish o =>
      obtain ⟨x, fr, hfr⟩ := List.exists_cons_of_ne_nil hp.nonempty
      by_cases hz : s.state.cnt - 1 = 0
      · have hfr0 : fr = [] := by
          have := hp.cnt
          rw [hfr] at this
          simp only [List.length_cons] at this
          exact List.length_eq_zero.mp (by omega)
        subst hfr0
        have hx : x = a0 := hp.bottom x (by rw [hfr]; rfl)
        have hstep : s.step (ClosureAct.finish o) = some
            ⟨⟨s.state.a, s.state.b, s.state.cnt - 1, s.state.dtor⟩, [],
              s.log ++ [ClosureEvent.callDtor s.state.dtor x s.state.b,
                ClosureEvent.unregister], false, s.held, s.collected⟩ := by
          simp [ClosureSys.step, realFinally, hfr, hz]
        simp only [ClosureSys.run, hstep] at hrun
        simp only [noInvokeAtZero, hstep, Bool.and_eq_true] at hdisc
        obtain ⟨hacts, hfinal⟩ := unregistered_terminal _ final acts hz rfl rfl
          (by simpa [ClosureAct.isDrop] using hdrop) hrun hdisc.2
        subst hacts
        subst hfinal
        have hnz : ¬ s.state.cnt = 0 := by omega
        refine ⟨by simp [cntZeroHits, hstep, hz, hnz], ?_⟩
        simp [ClosureEvent.isDestroy, hp.b, hp.dtor, hx]
      · have hstep : s.step (ClosureAct.finish o) = some
            ⟨⟨x, s.state.b, s.state.cnt - 1, s.state.dtor⟩, fr, s.log, s.registered, s.held,
              s.collected⟩ := by
          simp [ClosureSys.step, realFinally, hfr, hz]
        have hfrne : fr ≠ [] := by
          intro h
          have := hp.cnt
          rw [hfr, h] at this
          simp at this
          omega
        have hp1 : Pending a0 b0 d0
            ⟨⟨x, s.state.b, s.state.cnt - 1, s.state.dtor⟩, fr, s.log, s.registered, s.held,
              s.collected⟩ :=
          { cnt := by
              have := hp.cnt
              rw [hfr] at this
              simp only [List.length_cons] at this
              show s.state.cnt - 1 = (fr.length : Int)
              push_cast at this
              omega
            nonempty := hfrne
            b := hp.b
            dtor := hp.dtor
            bottom := by
              intro y hy
              apply hp.bottom y
              rw [hfr, getLast?_cons_of_ne_nil _ _ hfrne]
              exact hy }
        simp only [ClosureSys.run, hstep] at hrun
        simp only [noInvokeAtZero, hstep, Bool.and_eq_true] at hdisc
        obtain ⟨h1, h2⟩ := ih _ hp1 (by simpa [ClosureAct.isDrop] using hdrop) hrun hdisc.2
        refine ⟨by simp only [cntZeroHits, hstep, hz, and_false, if_false]; omega, ?_⟩
        rw [h2]
    | drop => simp [ClosureAct.isDrop] at hdrop
    | finalize =>
      have hcan : s.canFinalize = false := by
        obtain ⟨x, fr, hfr⟩ := List.exists_cons_of_ne_nil hp.nonempty
        simp [ClosureSys.canFinalize, hfr]
      simp [ClosureSys.run, ClosureSys.step, hcan] at hrun

theorem fresh_run (a0 b0 d0 : Int) (acts : List ClosureAct) (s final : ClosureSys)
    (hp : Fresh a0 b0 d0 s) (hdrop : (acts.filter ClosureAct.isDrop).length = 1)
    (hrun : s.run acts = some final) (hdone : final.frames = [])
    (hdisc : noInvokeAtZero s acts = true) :
    cntZeroHits s acts = 1 ∧
      (final.log.filter ClosureEvent.isDestroy =
          s.log.filter ClosureEvent.isDestroy ++ [ClosureEvent.cbDropReturned true] ∨
        (s.registered = true ∧ final.log.filter ClosureEvent.isDestroy =
          s.log.filter ClosureEvent.isDestroy ++
            [ClosureEvent.cbDropReturned true, ClosureEvent.callDtor d0 0 b0]) ∨
        final.log.filter ClosureEvent.isDestroy =
          s.log.filter ClosureEvent.isDestroy ++ [ClosureEvent.callDtor d0 a0 b0]) := by
  induction acts generalizing s with
  | nil => simp at hdrop
  | cons act acts ih =>
    cases act with
    | invoke =>
      cases hcol : s.collected with
      | true => simp [ClosureSys.run, ClosureSys.step, hcol] at hrun
      | false =>
        have hstep : s.step ClosureAct.invoke = some (realEnter s) := by
          simp [ClosureSys.step, hcol]
        have hp1 : Fresh a0 b0 d0 (realEnter s) :=
          { held := hp.held
            cnt := by simp [realEnter, hp.cnt]; omega
            b := hp.b
            dtor := hp.dtor
            top := by simp [realEnter]
            bottom := by
              intro x hx
              simp only [realEnter] at hx
              by_cases hf : s.frames = []
              · rw [hf] at hx
                simp only [List.getLast?_singleton, Option.some.injEq] at hx
                rw [← hx]
                exact hp.top hf
              · rw [getLast?_cons_of_ne_nil _ _ hf] at hx
                exact hp.bottom x hx }
        have hne : ¬ (realEnter s).state.cnt = 0 := by
          have := hp1.cnt
          omega
        simp only [ClosureSys.run, hstep] at hrun
        simp only [noInvokeAtZero, hstep, Bool.and_eq_true] at hdisc
        obtain ⟨h1, h2⟩ := ih (realEnter s) hp1 (by simpa [ClosureAct.isDrop] using hdrop)
          hrun hdisc.2
        refine ⟨by simp only [cntZeroHits, hstep, hne, and_false, if_false]; omega, ?_⟩
        have hlog : (realEnter s).log.filter ClosureEvent.isDestroy =
            s.log.filter ClosureEvent.isDestroy := by
          simp [realEnter, ClosureEvent.isDestroy]
        rw [hlog] at h2
        exact h2
    | finish o =>
      cases hfr : s.frames with
      | nil => simp [ClosureSys.run, ClosureSys.step, realFinally, hfr] at hrun
      | cons x fr =>
        have hcnt := hp.cnt
        rw [hfr] at hcnt
        simp only [List.length_cons] at hcnt
        have hz : ¬ (s.state.cnt - 1 = 0) := by omega
        have hstep : s.step (ClosureAct.finish o) = some
            ⟨⟨x, s.state.b, s.state.cnt - 1, s.state.dtor⟩, fr, s.log, s.registered, s.held,
              s.collected⟩ := by
          simp [ClosureSys.step, realFinally, hfr, hz]
        have hp1 : Fresh a0 b0 d0
            ⟨⟨x, s.state.b, s.state.cnt - 1, s.state.dtor⟩, fr, s.log, s.registered, s.held,
              s.collected⟩ :=
          { held := hp.held
            cnt := by
              show s.state.cnt - 1 = 1 + (fr.length : Int)
              push_cast at hcnt
              omega
            b := hp.b
            dtor := hp.dtor
            top := by
              intro hf
              simp only at hf
              apply hp.bottom x
              rw [hfr, hf]
              rfl
            bottom := by
              intro y hy
              simp only at hy
              have hfrne : fr ≠ [] := by
                intro h
                rw [h] at hy
                simp at hy
              apply hp.bottom y
              rw [hfr, getLast?_cons_of_ne_nil _ _ hfrne]
              exact hy }
        simp only [ClosureSys.run, hstep] at hrun
        simp only [noInvokeAtZero, hstep, Bool.and_eq_true] at hdisc
        obtain ⟨h1, h2⟩ := ih _ hp1 (by simpa [ClosureAct.isDrop] using hdrop) hrun hdisc.2
        exact ⟨by simp only [cntZeroHits, hstep, hz, and_false, if_false]; omega, h2⟩
    | drop =>
      have hdrop0 : (acts.filter ClosureAct.isDrop).length = 0 := by
        simpa [ClosureAct.isDrop] using hdrop
      by_cases hf : s.frames = []
      · have hc1 : s.state.cnt = 1 := by
          have := hp.cnt
          rw [hf] at this
          simpa using this
        have hstep : s.step ClosureAct.drop = some
            ⟨⟨0, s.state.b, s.state.cnt - 1, s.state.dtor⟩, s.frames,
              s.log ++ [ClosureEvent.cbDropReturned true], s.registered, false,
              s.collected⟩ := by
          simp [ClosureSys.step, __wbindgen_cb_drop, hc1, hp.held]
        simp only [ClosureSys.run, hstep] at hrun
        simp only [noInvokeAtZero, hstep, Bool.and_eq_true] at hdisc
        obtain ⟨h1, _, h3⟩ := released_run _ final acts
          (by show s.state.cnt - 1 = 0; omega) (by exact hf) hdrop0 hrun hdisc.2
        refine ⟨by simp only [cntZeroHits, hstep]; rw [h1]; simp [hc1], ?_⟩
        rcases h3 with h3 | ⟨hreg, h3⟩
        · left
          rw [h3]
          simp [ClosureEvent.isDestroy]
        · right
          left
          refine ⟨hreg, ?_⟩
          rw [h3]
          simp [ClosureEvent.isDestroy, hp.b, hp.dtor]
      · have hlen : s.frames.length ≠ 0 := fun h => hf (List.length_eq_zero.mp h)
        have hc1 : ¬ s.state.cnt = 1 := by
          have := hp.cnt
          omega
        have hstep : s.step ClosureAct.drop = some
            ⟨⟨s.state.a, s.state.b, s.state.cnt - 1, s.state.dtor⟩, s.frames,
              s.log ++ [ClosureEvent.cbDropReturned false], s.registered, false,
              s.collected⟩ := by
          simp [ClosureSys.step, __wbindgen_cb_drop, hc1, hp.held]
        have hp1 : Pending a0 b0 d0
            ⟨⟨s.state.a, s.state.b, s.state.cnt - 1, s.state.dtor⟩, s.frames,
              s.log ++ [ClosureEvent.cbDropReturned false], s.registered, false,
              s.collected⟩ :=
          { cnt := by
              have := hp.cnt
              show s.state.cnt - 1 = (s.frames.length : Int)
              omega
            nonempty := hf
            b := hp.b
            dtor := hp.dtor
            bottom := hp.bottom }
        have hz : ¬ (s.state.cnt - 1 = 0) := by
          have := hp.cnt
          omega
        simp only [ClosureSys.run, hstep] at hrun
        simp only [noInvokeAtZero, hstep, Bool.and_eq_true] at hdisc
        obtain ⟨h1, h2⟩ := pending_run a0 b0 d0 acts _ final hp1 hdrop0 hrun hdone hdisc.2
        refine ⟨by simp only [cntZeroHits, hstep, hz, and_false, if_false]; omega,
          Or.inr (Or.inr ?_)⟩
        rw [h2]
        simp [ClosureEvent.isDestroy]
    | finalize =>
      have hcan : s.canFinalize = false := by
        simp [ClosureSys.canFinalize, hp.held]
      simp [ClosureSys.run, ClosureSys.step, hcan] at hrun

theorem dtorArgs_step (a0 b0 d0 : Int) (s s1 : ClosureSys) (act : ClosureAct)
    (hg : DtorArgs a0 b0 d0 s) (hstep : s.step act = some s1) : DtorArgs a0 b0 d0 s1 := by
  cases act with
  | invoke =>
    simp only [ClosureSys.step] at hstep
    split at hstep
    · cases hstep
    · simp only [Option.some.injEq] at hstep
      subst hstep
      exact
        { b := hg.b
          dtor := hg.dtor
          a := Or.inr rfl
          frames := by
            intro x hx
            simp only [realEnter, List.mem_cons] at hx
            rcases hx with rfl | hx
            · exact hg.a
            · exact hg.frames x hx
          log := by
            intro e he hd
            simp only [realEnter, List.mem_append, List.mem_singleton] at he
            rcases he with he | rfl
            · exact hg.log e he hd
            · simp [ClosureEvent.isDtor] at hd }
  | finish o =>
    simp only [ClosureSys.step, realFinally] at hstep
    cases hfr : s.frames with
    | nil => simp [hfr] at hstep
    | cons x fr =>
      have hx : x = a0 ∨ x = 0 := hg.frames x (by rw [hfr]; exact List.mem_cons_self _ _)
      have hfrs : ∀ y ∈ fr, y = a0 ∨ y = 0 := fun y hy =>
        hg.frames y (by rw [hfr]; exact List.mem_cons_of_mem _ hy)
      simp only [hfr] at hstep
      split at hstep
      · simp only [Option.map_some', Option.some.injEq] at hstep
        subst hstep
        exact
          { b := hg.b
            dtor := hg.dtor
            a := hg.a
            frames := hfrs
            log := by
              intro e he hd
              simp only [List.mem_append, List.mem_cons, List.mem_singleton,
                List.not_mem_nil, or_false] at he
              rcases he with he | rfl | rfl
              · exact hg.log e he hd
              · rw [hg.dtor, hg.b]
                rcases hx with rfl | rfl
                · exact Or.inl rfl
                · exact Or.inr rfl
              · simp [ClosureEvent.isDtor] at hd }
      · simp only [Option.map_some', Option.some.injEq] at hstep
        subst hstep
        exact { b := hg.b, dtor := hg.dtor, a := hx, frames := hfrs, log := hg.log }
  | drop =>
    simp only [ClosureSys.step] at hstep
    split at hstep
    · simp only [Option.some.injEq] at hstep
      subst hstep
      unfold __wbindgen_cb_drop
      split
      · exact
          { b := hg.b
            dtor := hg.dtor
            a := Or.inr rfl
            frames := hg.frames
            log := by
              intro e he hd
              simp only [List.mem_append, List.mem_singleton] at he
              rcases he with he | rfl
              · exact hg.log e he hd
              · simp [ClosureEvent.isDtor] at hd }
      · exact
          { b := hg.b
            dtor := hg.dtor
            a := hg.a
            frames := hg.frames
            log := by
              intro e he hd
              simp only [List.mem_append, List.mem_singleton] at he
              rcases he with he | rfl
              · exact hg.log e he hd
              · simp [ClosureEvent.isDtor] at hd }
    · cases hstep
  | finalize =>
    simp only [ClosureSys.step] at hstep
    split at hstep
    · simp only [Option.some.injEq] at hstep
      subst hstep
      exact
        { b := hg.b
          dtor := hg.dtor
          a := hg.a
          frames := hg.frames
          log := by
            intro e he hd
            simp only [finalizer, List.mem_append, List.mem_singleton] at he
            rcases he with he | rfl
            · exact hg.log e he hd
            · rw [hg.dtor, hg.b]
              rcases hg.a with h | h
              · rw [h]
                exact Or.inl rfl
              · rw [h]
                exact Or.inr rfl }
    · cases hstep

theorem dtorArgs_run (a0 b0 d0 : Int) (acts : List ClosureAct) (s final : ClosureSys)
    (hg : DtorArgs a0 b0 d0 s) (hrun : s.run acts = some final) :
    DtorArgs a0 b0 d0 final := by
  induction acts generalizing s with
  | nil =>
    simp only [ClosureSys.run, Option.some.injEq] at hrun
    subst hrun
    exact hg
  | cons act acts ih =>
    simp only [ClosureSys.run] at hrun
    cases hs : s.step act with
    | none => rw [hs] at hrun; cases hrun
    | some s1 =>
      rw [hs] at hrun
      exact ih s1 (dtorArgs_step a0 b0 d0 s s1 act hg hs) hrun

theorem dtorArgs_makeMutClosure (hasFinalizationRegistry : Bool) (a b dtor : Int) :
    DtorArgs a b dtor (makeMutClosure hasFinalizationRegistry a b dtor) :=
  { b := rfl, dtor := rfl, a := Or.inl rfl
    frames := by simp [makeMutClosure]
    log := by simp [makeMutClosure] }

/-! ## Claims about closures -/

/-- C9 (as stated, refuted): in the interleaving "release, then one invocation of the
wrapper", `__wbindgen_cb_drop` returns `true` and the destructor is called as well, and
`state.cnt` reaches zero twice; and in the interleaving that is the release alone, the
finalizer of the still registered `state` calls the destructor after
`__wbindgen_cb_drop` has returned `true`. -/
theorem C9_release_then_invoke_destroys_twice :
    (∃ final, (makeMutClosure true 7 8 29).run
        [ClosureAct.drop, ClosureAct.invoke, ClosureAct.finish (Except.ok JsValue.undefined)]
        = some final ∧
      final.frames = [] ∧
      cntZeroHits (makeMutClosure true 7 8 29)
        [ClosureAct.drop, ClosureAct.invoke, ClosureAct.finish (Except.ok JsValue.undefined)]
        = 2 ∧
      final.log = [ClosureEvent.cbDropReturned true, ClosureEvent.callF 0 8,
        ClosureEvent.callDtor 29 0 8, ClosureEvent.unregister]) ∧
    (∃ final, (makeMutClosure true 7 8 29).run [ClosureAct.drop, ClosureAct.finalize]
        = some final ∧
      final.log = [ClosureEvent.cbDropReturned true, ClosureEvent.callDtor 29 0 8]) :=
  ⟨⟨_, rfl, rfl, rfl, rfl⟩, ⟨_, rfl, rfl⟩⟩

/-- C9 (amended): for a closure created by `makeMutClosure` and every complete
interleaving of wrapper invocations (possibly nested), one `__wbindgen_cb_drop` and the
finalizer of `CLOSURE_DTORS`, in which no invocation starts while `state.cnt` is zero,
`state.cnt` reaches zero exactly once and the destroying events are one of: the one `true`
returned by `__wbindgen_cb_drop`; that `true` followed by the finalizer's call of the
destructor with 0 in place of the environment pointer (only with a
`FinalizationRegistry`); or one call of the destructor with the original `a` and `b`. -/
theorem C9_environment_destroyed_exactly_once (hasFinalizationRegistry : Bool)
    (a b dtor : Int) (acts : List ClosureAct) (final : ClosureSys)
    (hrun : (makeMutClosure hasFinalizationRegistry a b dtor).run acts = some final)
    (hdone : final.frames = []) (hdrop : (acts.filter ClosureAct.isDrop).length = 1)
    (hdisc : noInvokeAtZero (makeMutClosure hasFinalizationRegistry a b dtor) acts = true) :
    cntZeroHits (makeMutClosure hasFinalizationRegistry a b dtor) acts = 1 ∧
      (final.log.filter ClosureEvent.isDestroy = [ClosureEvent.cbDropReturned true] ∨
        (hasFinalizationRegistry = true ∧ final.log.filter ClosureEvent.isDestroy =
          [ClosureEvent.cbDropReturned true, ClosureEvent.callDtor dtor 0 b]) ∨
        final.log.filter ClosureEvent.isDestroy = [ClosureEvent.callDtor dtor a b]) := by
  have hp : Fresh a b dtor (makeMutClosure hasFinalizationRegistry a b dtor) :=
    { held := rfl, cnt := rfl, b := rfl, dtor := rfl, top := fun _ => rfl
      bottom := by intro x hx; simp [makeMutClosure] at hx }
  have := fresh_run a b dtor acts _ final hp hdrop hrun hdone hdisc
  simpa [makeMutClosure] using this

/-- Witness of C9 (amended): two nested invocations, a release during the inner one, then
both calls return; the destructor is called once, with the original `a` and `b`. -/
theorem C9_environment_destroyed_exactly_once_witness :
    ∃ final, (makeMutClosure true 7 8 29).run
        [ClosureAct.invoke, ClosureAct.invoke, ClosureAct.drop,
          ClosureAct.finish (Except.ok JsValue.undefined),
          ClosureAct.finish (Except.ok JsValue.undefined)] = some final ∧
      final.frames = [] ∧
      cntZeroHits (makeMutClosure true 7 8 29)
        [ClosureAct.invoke, ClosureAct.invoke, ClosureAct.drop,
          ClosureAct.finish (Except.ok JsValue.undefined),
          ClosureAct.finish (Except.ok JsValue.undefined)] = 1 ∧
      (final.log.filter ClosureEvent.isDestroy = [ClosureEvent.cbDropReturned true] ∨
        (true = true ∧ final.log.filter ClosureEvent.isDestroy =
          [ClosureEvent.cbDropReturned true, ClosureEvent.callDtor 29 0 8]) ∨
        final.log.filter ClosureEvent.isDestroy = [ClosureEvent.callDtor 29 7 8]) :=
  ⟨_, rfl, rfl,
    C9_environment_destroyed_exactly_once true 7 8 29
      [ClosureAct.invoke, ClosureAct.invoke, ClosureAct.drop,
        ClosureAct.finish (Except.ok JsValue.undefined),
        ClosureAct.finish (Except.ok JsValue.undefined)] _ rfl rfl rfl rfl⟩

/-- C10 (as stated, refuted): with three invocations before the release and one after,
`__wbindgen_cb_drop` returns `true` and `f` is then called a fourth time, and the
destructor is called. -/
theorem C10_invocation_after_release_calls_f :
    ∃ final, (makeMutClosure true 7 8 29).run
        (invokeOnce ++ invokeOnce ++ invokeOnce ++ [ClosureAct.drop] ++ invokeOnce)
        = some final ∧
      final.log = [ClosureEvent.callF 7 8, ClosureEvent.callF 7 8, ClosureEvent.callF 7 8,
        ClosureEvent.cbDropReturned true, ClosureEvent.callF 0 8,
        ClosureEvent.callDtor 29 0 8, ClosureEvent.unregister] ∧
      (final.log.filter ClosureEvent.isCallF).length = 4 :=
  ⟨_, rfl, rfl, rfl⟩

/-- C10 (amended): on a released closure (`cnt = 0`, `a = 0`, no invocation in progress)
an invocation of the wrapper calls `f` with 0 in place of the environment pointer, then
calls the destructor with 0 in place of the environment pointer, and leaves the closure
state unchanged; so with three invocations before the release and one after, `f` is
called three times with the original `a` and once with 0. -/
theorem C10_invocation_after_release (s : ClosureSys) (outcome : Except JsValue JsValue)
    (hc : s.state.cnt = 0) (ha : s.state.a = 0) :
    (∃ s1, realFinally (realEnter s) outcome = some (s1, outcome) ∧
      s1.state = s.state ∧ s1.frames = s.frames ∧
      s1.log = s.log ++ [ClosureEvent.callF 0 s.state.b,
        ClosureEvent.callDtor s.state.dtor 0 s.state.b, ClosureEvent.unregister]) ∧
    (∀ (hasFinalizationRegistry : Bool) (a b dtor : Int), ∃ final,
      (makeMutClosure hasFinalizationRegistry a b dtor).run
        (invokeOnce ++ invokeOnce ++ invokeOnce ++ [ClosureAct.drop] ++ invokeOnce)
        = some final ∧
      final.state = { a := 0, b := b, cnt := 0, dtor := dtor } ∧
      final.log = [ClosureEvent.callF a b, ClosureEvent.callF a b, ClosureEvent.callF a b,
        ClosureEvent.cbDropReturned true, ClosureEvent.callF 0 b,
        ClosureEvent.callDtor dtor 0 b, ClosureEvent.unregister]) := by
  constructor
  · refine ⟨⟨s.state, s.frames, s.log ++ [ClosureEvent.callF 0 s.state.b,
      ClosureEvent.callDtor s.state.dtor 0 s.state.b, ClosureEvent.unregister], false, s.held,
      s.collected⟩, ?_, rfl, rfl, rfl⟩
    obtain ⟨⟨a, b, cnt, dtor⟩, frames, log, registered, held, collected⟩ := s
    simp only at hc ha
    subst hc
    subst ha
    simp [realFinally, realEnter]
  · intro hasFinalizationRegistry a b dtor
    exact ⟨_, rfl, rfl, rfl⟩

/-- Witness of C10 (amended) on the closure released by `__wbindgen_cb_drop`. -/
theorem C10_invocation_after_release_witness :
    (__wbindgen_cb_drop (makeMutClosure true 7 8 29)).2 = true ∧
      (__wbindgen_cb_drop (makeMutClosure true 7 8 29)).1.state.cnt = 0 ∧
      (__wbindgen_cb_drop (makeMutClosure true 7 8 29)).1.state.a = 0 ∧
      ∃ s1, realFinally (realEnter (__wbindgen_cb_drop (makeMutClosure true 7 8 29)).1)
          (Except.ok JsValue.null) = some (s1, Except.ok JsValue.null) ∧
        s1.state = (__wbindgen_cb_drop (makeMutClosure true 7 8 29)).1.state ∧
        s1.log = [ClosureEvent.cbDropReturned true, ClosureEvent.callF 0 8,
          ClosureEvent.callDtor 29 0 8, ClosureEvent.unregister] := by
  obtain ⟨s1, h1, h2, _, h4⟩ := (C10_invocation_after_release
    (__wbindgen_cb_drop (makeMutClosure true 7 8 29)).1 (Except.ok JsValue.null) rfl rfl).1
  exact ⟨rfl, rfl, rfl, s1, h1, h2, h4⟩

/-- C11 (as stated, refuted): after a release that returned `true`, with no invocation of
the wrapper at all, the finalizer of the still registered `state` calls the destructor:
not at a decrement in the wrapper, and with 0 instead of the original `a = 7`. -/
theorem C11_finalizer_calls_the_destructor :
    ∃ final, (makeMutClosure true 7 8 29).run [ClosureAct.drop, ClosureAct.finalize]
        = some final ∧
      final.log = [ClosureEvent.cbDropReturned true, ClosureEvent.callDtor 29 0 8] ∧
      final.log.filter ClosureEvent.isCallF = [] ∧
      ClosureEvent.callDtor 29 7 8 ∉ final.log :=
  ⟨_, rfl, rfl, rfl, by decide⟩

/-- C11 (amended): invoking the wrapper of an unreleased closure (`cnt >= 1`) protects and
then restores its state.  While `f` runs, `cnt` is one higher and `state.a` is 0, and a
`__wbindgen_cb_drop` issued then returns `false` and calls no destructor; when `f`
returns or throws without such a drop, the closure is what it was before the call, the
only new event is the call of `f`, and the wrapper completes with the outcome of `f`.
The destructor has two call sites.  The `finally` block of the wrapper calls it only
when its decrement brings `cnt` to 0, with the `a` saved by that invocation and
`state.b`; after a drop during a call of the last reference these are the `a` and `b` from
before the call.  The finalizer calls it with `state.a` and `state.b`.  `realEnter` and
`__wbindgen_cb_drop` never call it.  For a closure made by `makeMutClosure(a, b, dtor)`
every destructor call, in every interleaving, passes `(a, b)` or `(0, b)`. -/
theorem C11_invocation_protects_and_restores (s : ClosureSys) (hc : 1 ≤ s.state.cnt) :
    (realEnter s).state.cnt = s.state.cnt + 1 ∧ (realEnter s).state.a = 0 ∧
    (__wbindgen_cb_drop (realEnter s)).2 = false ∧
    (__wbindgen_cb_drop (realEnter s)).1.log =
      s.log ++ [ClosureEvent.callF s.state.a s.state.b, ClosureEvent.cbDropReturned false] ∧
    (∀ outcome, realFinally (realEnter s) outcome =
      some ({ state := s.state, frames := s.frames,
              log := s.log ++ [ClosureEvent.callF s.state.a s.state.b],
              registered := s.registered, held := s.held, collected := s.collected },
            outcome)) ∧
    (∀ (t t1 : ClosureSys) (outcome o : Except JsValue JsValue),
      realFinally t outcome = some (t1, o) →
        (t.state.cnt - 1 = 0 ∧ ∃ a rest, t.frames = a :: rest ∧
          t1.log = t.log ++ [ClosureEvent.callDtor t.state.dtor a t.state.b,
            ClosureEvent.unregister]) ∨
        (t.state.cnt - 1 ≠ 0 ∧ t1.log = t.log)) ∧
    (∀ t : ClosureSys, (realEnter t).log.filter ClosureEvent.isDtor
        = t.log.filter ClosureEvent.isDtor ∧
      (__wbindgen_cb_drop t).1.log.filter ClosureEvent.isDtor
        = t.log.filter ClosureEvent.isDtor ∧
      (finalizer t).log = t.log ++ [ClosureEvent.callDtor t.state.dtor t.state.a t.state.b]) ∧
    (s.state.cnt = 1 → ∀ outcome, ∃ s1,
      realFinally (__wbindgen_cb_drop (realEnter s)).1 outcome = some (s1, outcome) ∧
      s1.state.cnt = 0 ∧
      s1.log = s.log ++ [ClosureEvent.callF s.state.a s.state.b,
        ClosureEvent.cbDropReturned false,
        ClosureEvent.callDtor s.state.dtor s.state.a s.state.b, ClosureEvent.unregister]) ∧
    (∀ (hasFinalizationRegistry : Bool) (a b dtor : Int) (acts : List ClosureAct)
      (final : ClosureSys),
      (makeMutClosure hasFinalizationRegistry a b dtor).run acts = some final →
      ∀ e ∈ final.log, e.isDtor = true →
        e = ClosureEvent.callDtor dtor a b ∨ e = ClosureEvent.callDtor dtor 0 b) := by
  obtain ⟨⟨a, b, cnt, dtor⟩, frames, log, registered, held, collected⟩ := s
  simp only at hc
  have h1 : ¬ (cnt + 1 = 1) := by omega
  have h3 : ¬ (cnt = 0) := by omega
  refine ⟨rfl, rfl, ?_, ?_, ?_, ?_, ?_, ?_, ?_⟩
  · simp [__wbindgen_cb_drop, realEnter, h1]
  · simp [__wbindgen_cb_drop, realEnter, h1]
  · intro outcome
    simp [realFinally, realEnter, h3]
  · intro t t1 outcome o h
    unfold realFinally at h
    cases hfr : t.frames with
    | nil => simp [hfr] at h
    | cons x fr =>
      simp only [hfr] at h
      by_cases hz : t.state.cnt - 1 = 0
      · rw [if_pos hz] at h
        simp only [Option.some.injEq, Prod.mk.injEq] at h
        left
        refine ⟨hz, x, fr, rfl, ?_⟩
        rw [← h.1]
      · rw [if_neg hz] at h
        simp only [Option.some.injEq, Prod.mk.injEq] at h
        right
        refine ⟨hz, ?_⟩
        rw [← h.1]
  · intro t
    refine ⟨?_, ?_, rfl⟩
    · simp [realEnter, ClosureEvent.isDtor]
    · unfold __wbindgen_cb_drop
      split <;> simp [ClosureEvent.isDtor]
  · intro hcnt outcome
    simp only at hcnt
    subst hcnt
    refine ⟨_, rfl, rfl, ?_⟩
    simp [__wbindgen_cb_drop, realEnter]
  · intro hasFinalizationRegistry a0 b0 d0 acts final hrun
    exact (dtorArgs_run a0 b0 d0 acts _ final
      (dtorArgs_makeMutClosure hasFinalizationRegistry a0 b0 d0) hrun).log

/-- Witness of C11 (amended) on a fresh closure. -/
theorem C11_invocation_protects_and_restores_witness :
    (1 : Int) ≤ (makeMutClosure true 7 8 29).state.cnt ∧
      (__wbindgen_cb_drop (realEnter (makeMutClosure true 7 8 29))).2 = false ∧
      realFinally (realEnter (makeMutClosure true 7 8 29)) (Except.error (JsValue.other 3)) =
        some ({ state := (makeMutClosure true 7 8 29).state, frames := [],
                log := [ClosureEvent.callF 7 8], registered := true, held := true,
                collected := false }, Except.error (JsValue.other 3)) :=
  ⟨by decide,
    (C11_invocation_protects_and_restores (makeMutClosure true 7 8 29) (by decide)).2.2.1,
    (C11_invocation_protects_and_restores (makeMutClosure true 7 8 29) (by decide)).2.2.2.2.1
      (Except.error (JsValue.other 3))⟩

/-! ## Claims about initialisation -/

/-- Once `wasm` is set and no call is suspended, every further call completes at once
with `wasm` and changes nothing; a resumption cannot happen. -/
theorem calls_of_initialised (s : InitState) (w : Nat) (hw : s.wasm = some w)
    (hs : s.suspended = 0) (cs : List InitCall) :
    ((∀ c ∈ cs, c.isResume = false) →
      s.calls cs = some (s, List.replicate cs.length (Except.ok w))) ∧
    (∀ final rs, s.calls cs = some (final, rs) →
      final = s ∧ rs = List.replicate cs.length (Except.ok w)) := by
  induction cs with
  | nil =>
    refine ⟨fun _ => rfl, ?_⟩
    intro final rs h
    simp only [InitState.calls, Option.some.injEq, Prod.mk.injEq] at h
    exact ⟨h.1.symm, h.2.symm⟩
  | cons c cs ih =>
    cases c with
    | sync outcome startThrows =>
      have hc : s.call (InitCall.sync outcome startThrows) = some (s, some (Except.ok w)) := by
        simp [InitState.call, initSync, hw]
      constructor
      · intro hno
        have := ih.1 (fun c hc => hno c (List.mem_cons_of_mem _ hc))
        simp only [InitState.calls, hc, this]
        rfl
      · intro final rs h
        simp only [InitState.calls, hc] at h
        cases hrest : s.calls cs with
        | none => simp [hrest] at h
        | some p =>
          obtain ⟨s2, rs2⟩ := p
          obtain ⟨e1, e2⟩ := ih.2 s2 rs2 hrest
          simp only [hrest, Option.some.injEq, Prod.mk.injEq] at h
          refine ⟨by rw [← h.1, e1], ?_⟩
          rw [← h.2, e2]
          rfl
    | asyncBegin =>
      have hc : s.call InitCall.asyncBegin = some (s, some (Except.ok w)) := by
        simp [InitState.call, __wbg_init_begin, hw]
      constructor
      · intro hno
        have := ih.1 (fun c hc => hno c (List.mem_cons_of_mem _ hc))
        simp only [InitState.calls, hc, this]
        rfl
      · intro final rs h
        simp only [InitState.calls, hc] at h
        cases hrest : s.calls cs with
        | none => simp [hrest] at h
        | some p =>
          obtain ⟨s2, rs2⟩ := p
          obtain ⟨e1, e2⟩ := ih.2 s2 rs2 hrest
          simp only [hrest, Option.some.injEq, Prod.mk.injEq] at h
          refine ⟨by rw [← h.1, e1], ?_⟩
          rw [← h.2, e2]
          rfl
    | asyncResume outcome startThrows =>
      have hc : s.call (InitCall.asyncResume outcome startThrows) = none := by
        simp [InitState.call, hs]
      constructor
      · intro hno
        have := hno _ (List.mem_cons_self _ _)
        simp [InitCall.isResume] at this
      · intro final rs h
        simp [InitState.calls, hc] at h

/-- The model does not take `__wbg_init` as atomic: two calls that overlap (both have
passed the test of `wasm` before either resumes) both instantiate and both call the
entry point. -/
theorem overlapping_init_calls_start_twice :
    ∃ final rs, InitState.initial.calls
        [InitCall.asyncBegin, InitCall.asyncBegin,
          InitCall.asyncResume (Except.ok { exports := 1, module := 2 }) none,
          InitCall.asyncResume (Except.ok { exports := 3, module := 4 }) none]
        = some (final, rs) ∧
      (final.log.filter InitEvent.isStart).length = 2 :=
  ⟨_, _, rfl, rfl⟩

/-- A trap in the entry point leaves `initSync` as an exception, with `wasm` already
set. -/
theorem initSync_start_trap :
    initSync InitState.initial (Except.ok { exports := 1, module := 2 })
        (some JsError.runtimeError) =
      ({ wasm := some 1, wasmModule := some 2, caches := Caches.empty,
         log := [InitEvent.getImports, InitEvent.instantiate, InitEvent.start 1],
         suspended := 0 }, Except.error JsError.runtimeError) :=
  rfl

/-- C13: initialisation is idempotent.  Once `wasm` is set, `initSync` and `__wbg_init`
return it at once and change nothing (no import table, no instantiation, no cache reset,
no call of `wasm.__wbindgen_start`).  Hence, when the first initialisation call (an
`initSync`, or a `__wbg_init` that runs to its end before anything else) succeeds, its
instantiation and its entry point both completing, then over every sequence of later
calls `wasm.__wbindgen_start` has been called exactly once and every call returns the
exports of the first instance. -/
theorem C13_initialisation_is_idempotent :
    (∀ (s : InitState) (w : Nat) (outcome : Except JsError Instantiated)
      (startThrows : Option JsError), s.wasm = some w →
        initSync s outcome startThrows = (s, Except.ok w) ∧
        __wbg_init_begin s = (s, some w) ∧
        __wbg_init s outcome startThrows = (s, Except.ok w)) ∧
    (∀ (inst : Instantiated) (first cs : List InitCall),
      (first = [InitCall.sync (Except.ok inst) none] ∨
        first = [InitCall.asyncBegin, InitCall.asyncResume (Except.ok inst) none]) →
      ((∀ c ∈ cs, c.isResume = false) →
        ∃ final rs, InitState.initial.calls (first ++ cs) = some (final, rs) ∧
          final.wasm = some inst.exports ∧
          (final.log.filter InitEvent.isStart).length = 1 ∧
          rs = List.replicate (1 + cs.length) (Except.ok inst.exports)) ∧
      (∀ final rs, InitState.initial.calls (first ++ cs) = some (final, rs) →
        (final.log.filter InitEvent.isStart).length = 1 ∧
        ∀ r ∈ rs, r = Except.ok inst.exports)) := by
  constructor
  · intro s w outcome startThrows hw
    simp [initSync, __wbg_init, __wbg_init_begin, hw]
  · intro inst first cs hfirst
    have hrun : ∀ cs1 : List InitCall, InitState.initial.calls (first ++ cs1) =
        match InitState.calls
          { wasm := some inst.exports, wasmModule := some inst.module,
            caches := Caches.empty,
            log := [InitEvent.getImports, InitEvent.instantiate,
              InitEvent.start inst.exports],
            suspended := 0 } cs1 with
        | none => none
        | some (s2, rs) => some (s2, Except.ok inst.exports :: rs) := by
      intro cs1
      rcases hfirst with rfl | rfl
      · rfl
      · have h1 : InitState.initial.call InitCall.asyncBegin =
            some (⟨none, none, Caches.empty, [InitEvent.getImports], 1⟩, none) := rfl
        have h2 : InitState.call ⟨none, none, Caches.empty, [InitEvent.getImports], 1⟩
            (InitCall.asyncResume (Except.ok inst) none) =
            some (⟨some inst.exports, some inst.module, Caches.empty,
              [InitEvent.getImports, InitEvent.instantiate, InitEvent.start inst.exports], 0⟩,
              some (Except.ok inst.exports)) := rfl
        show InitState.calls _ (_ :: _ :: cs1) = _
        rw [InitState.calls, h1]
        simp only []
        rw [InitState.calls, h2]
        simp only []
        cases InitState.calls ⟨some inst.exports, some inst.module, Caches.empty,
          [InitEvent.getImports, InitEvent.instantiate, InitEvent.start inst.exports], 0⟩
          cs1 <;> rfl
    obtain ⟨k1, k2⟩ := calls_of_initialised
      { wasm := some inst.exports, wasmModule := some inst.module, caches := Caches.empty,
        log := [InitEvent.getImports, InitEvent.instantiate, InitEvent.start inst.exports],
        suspended := 0 } inst.exports rfl rfl cs
    constructor
    · intro hno
      refine ⟨⟨some inst.exports, some inst.module, Caches.empty,
        [InitEvent.getImports, InitEvent.instantiate, InitEvent.start inst.exports], 0⟩,
        Except.ok inst.exports :: List.replicate cs.length (Except.ok inst.exports),
        by rw [hrun cs, k1 hno], rfl, rfl, ?_⟩
      rw [Nat.add_comm]
      rfl
    · intro final rs h
      rw [hrun cs] at h
      cases hrest : InitState.calls
          { wasm := some inst.exports, wasmModule := some inst.module,
            caches := Caches.empty,
            log := [InitEvent.getImports, InitEvent.instantiate,
              InitEvent.start inst.exports],
            suspended := 0 } cs with
      | none => simp [hrest] at h
      | some p =>
        obtain ⟨s2, rs2⟩ := p
        obtain ⟨e1, e2⟩ := k2 s2 rs2 hrest
        simp only [hrest, Option.some.injEq, Prod.mk.injEq] at h
        refine ⟨by rw [← h.1, e1]; rfl, ?_⟩
        intro r hr
        rw [← h.2, e2] at hr
        simp only [List.mem_cons] at hr
        rcases hr with rfl | hr
        · rfl
        · exact (List.mem_replicate.mp hr).2

/-- Witness of C13: a successful `__wbg_init`, then an `initSync` whose module would not
link, a `__wbg_init` and an `initSync` of another module; the entry point is called once
and every call returns the first exports. -/
theorem C13_initialisation_is_idempotent_witness :
    ∃ final rs, InitState.initial.calls
        ([InitCall.asyncBegin,
            InitCall.asyncResume (Except.ok { exports := 1, module := 2 }) none] ++
          [InitCall.sync (Except.error JsError.linkError) none, InitCall.asyncBegin,
            InitCall.sync (Except.ok { exports := 3, module := 4 }) none])
        = some (final, rs) ∧
      final.wasm = some 1 ∧
      (final.log.filter InitEvent.isStart).length = 1 ∧
      rs = List.replicate (1 + 3) (Except.ok 1) :=
  (C13_initialisation_is_idempotent.2 { exports := 1, module := 2 }
    [InitCall.asyncBegin, InitCall.asyncResume (Except.ok { exports := 1, module := 2 }) none]
    [InitCall.sync (Except.error JsError.linkError) none, InitCall.asyncBegin,
      InitCall.sync (Except.ok { exports := 3, module := 4 }) none]
    (Or.inr rfl)).1 (by decide)

end Ghg
